import Mathlib

/-!
Verification of the documentation-search core of `keboola-api-documentation-mcp-server`.

The development shallowly embeds the Python sources:

* `src/keboola_docs_mcp/models.py`   — the `Parameter` / `Endpoint` / `ApiInfo` records;
* `src/keboola_docs_mcp/index.py`    — the tokenizer and the `SearchIndex` engine;
* `src/keboola_docs_mcp/parsers/apib.py`    — the API-Blueprint parser;
* `src/keboola_docs_mcp/parsers/openapi.py` — the OpenAPI/Swagger parser.

Modelling conventions:

* Python strings are `String` at record boundaries and `List Char` (`Chars`)
  inside the scanners; only ASCII casing matters to the code's regexes and
  to every input exercised here, so `Char.toLower`/`Char.toUpper` stand in
  for `str.lower()`/`str.upper()`.
* Python `dict`s are insertion-ordered association lists: updating an
  existing key keeps its position, a fresh key is appended.  This matches
  the CPython ≥ 3.7 guarantee the code relies on.
* Python `set`s (the posting sets of the inverted index) are duplicate-free
  lists.  CPython only guarantees membership, not iteration order, for
  sets; the deterministic embedding `pySetAdd` appends unseen elements,
  and the relation `SetIns` captures exactly the membership guarantee so
  that order-sensitive statements can be settled against the real API.
* Python `float` scores are `ℚ`: every increment the scorer uses is a
  multiple of 1/2, and sums of such values are exact in IEEE doubles far
  beyond any feasible index size, so rational arithmetic is faithful.
* Exceptions are `Except Unit`: `.error ()` marks a raised exception
  (`ValueError`, `KeyError`, `AttributeError`, …), `.ok` a normal return.
-/

namespace KeboolaDocs

abbrev Chars := List Char

/-- Whitespace test matching Python's `str.strip` / regex `\s` on ASCII text. -/
def isWS (c : Char) : Bool :=
  c == ' ' || c == '\t' || c == '\n' || c == '\r' || c == '\x0b' || c == '\x0c'

/-- Length of the maximal leading whitespace run. -/
def wsRun : Chars → Nat
  | [] => 0
  | c :: cs => if isWS c then wsRun cs + 1 else 0

/-- Python `str.lstrip()`. -/
def pyLstrip (cs : Chars) : Chars := cs.dropWhile (fun c => isWS c)

/-- Python `str.strip()`. -/
def pyStrip (cs : Chars) : Chars :=
  ((pyLstrip cs).reverse.dropWhile (fun c => isWS c)).reverse

/-- Python substring test `pat in cs` (`str.__contains__`). -/
def containsSub (pat : Chars) : Chars → Bool
  | [] => pat.isEmpty
  | c :: cs => pat.isPrefixOf (c :: cs) || containsSub pat cs

/-- Start indices (0-based, from index `i`) of every occurrence of `pat`. -/
def occAux (pat : Chars) : Chars → Nat → List Nat
  | [], _ => []
  | c :: cs, i =>
    (if pat.isPrefixOf (c :: cs) then [i] else []) ++ occAux pat cs (i + 1)

/-- Start indices of every occurrence of a (nonempty) pattern. -/
def occList (pat cs : Chars) : List Nat := occAux pat cs 0

/-- Indices of every newline character. -/
def nlPositions (cs : Chars) : List Nat := occList ['\n'] cs

/-- Python `content.split("\x5cn")`: always at least one piece. -/
def splitLinesC : Chars → List Chars
  | [] => [[]]
  | c :: cs =>
    let r := splitLinesC cs
    if c = '\n' then [] :: r
    else
      match r with
      | [] => [[c]]
      | l :: ls => (c :: l) :: ls

/-- Inverse of `splitLinesC`: join with newlines. -/
def joinLinesC (ls : List Chars) : Chars := List.intercalate ['\n'] ls

/-- ASCII lowering, standing in for `str.lower()`. -/
def lowerC (cs : Chars) : Chars := cs.map Char.toLower

/-- ASCII raising, standing in for `str.upper()`. -/
def upperC (cs : Chars) : Chars := cs.map Char.toUpper

/-- String-level `str.lower()`. -/
def lowerS (s : String) : String := ⟨lowerC s.data⟩

/-- String-level `str.upper()`. -/
def upperS (s : String) : String := ⟨upperC s.data⟩

/-- String-level Python substring test. -/
def containsS (pat s : String) : Bool := containsSub pat.data s.data

/-- Slice `cs[a:b]` over character lists. -/
def sliceC (cs : Chars) (a b : Nat) : Chars := (cs.take b).drop a

/-! ## The record models (`models.py`)

Field names follow the Python attributes except where Lean reserves the
word: Python `section` is `sectionName`, Python `example` is `exampleStr`.
`request_body_schema` is never populated by either parser and is an
`Option Unit` placeholder for the opaque dict. -/

structure Parameter where
  name : String
  location : String
  type : String := "string"
  required : Bool := false
  description : String := ""
  default : Option String := none
  exampleStr : Option String := none
deriving DecidableEq

structure Endpoint where
  api_name : String
  sectionName : String
  path : String
  method : String
  summary : String
  description : String := ""
  parameters : List Parameter := []
  request_body_schema : Option Unit := none
  request_example : Option String := none
  response_example : Option String := none
  auth_header : Option String := none
  base_url : Option String := none
deriving DecidableEq

/-- Unique key of an endpoint: `f"{api_name}:{method}:{path}"`. -/
def Endpoint.key (e : Endpoint) : String :=
  e.api_name ++ ":" ++ e.method ++ ":" ++ e.path

/-- Combined text for keyword matching (`Endpoint.searchable_text`). -/
def Endpoint.searchable_text (e : Endpoint) : String :=
  String.intercalate " "
    ([e.api_name, e.sectionName, e.path, e.method, e.summary, e.description]
      ++ e.parameters.map (fun p => p.name)
      ++ e.parameters.map (fun p => p.description))

structure ApiInfo where
  name : String
  description : String := ""
  base_url : Option String := none
  auth_header : Option String := none
  sections : List String := []
  endpoint_count : Nat := 0
deriving DecidableEq

end KeboolaDocs

namespace KeboolaDocs

/-! ## Tokenizer and search index (`index.py`) -/

/-- The module-level `STOPWORDS` set of `index.py`. -/
def STOPWORDS : List String :=
  ["a", "an", "the", "and", "or", "but", "in", "on", "at", "to", "for",
   "of", "with", "by", "from", "as", "is", "was", "are", "were", "been",
   "be", "have", "has", "had", "do", "does", "did", "will", "would",
   "could", "should", "may", "might", "must", "shall", "can", "need",
   "this", "that", "these", "those", "it", "its", "they", "them", "their",
   "you", "your", "we", "our", "api", "endpoint", "request", "response"]

/-- Character class of the token regex `[a-z0-9]+` (applied to lowered text). -/
def isTokChar (c : Char) : Bool :=
  ('a' ≤ c && c ≤ 'z') || ('0' ≤ c && c ≤ '9')

/-- Single pass over the text collecting maximal token-character runs;
`acc` is the current run, reversed. -/
def tokenRunsAux : Chars → Chars → List Chars
  | [], acc => if acc.isEmpty then [] else [acc.reverse]
  | c :: cs, acc =>
    if isTokChar c then tokenRunsAux cs (c :: acc)
    else if acc.isEmpty then tokenRunsAux cs []
    else acc.reverse :: tokenRunsAux cs []

/-- Maximal runs of token characters, as found by `re.findall(r"[a-z0-9]+", ·)`. -/
def tokenRuns (cs : Chars) : List Chars := tokenRunsAux cs []

/-- The private `SearchIndex._tokenize`: lowercase, split on non-alphanumeric
runs, drop short words and stopwords. -/
def tokenize (text : String) : List String :=
  ((tokenRuns (lowerC text.data)).map (fun cs => String.mk cs)).filter
    (fun w => decide (w.length > 2) && decide (w ∉ STOPWORDS))

/-- First-match association-list lookup: Python `dict.get` / `dict.__getitem__`. -/
def alookup {α : Type} : List (String × α) → String → Option α
  | [], _ => none
  | (k, v) :: m, key => if k = key then some v else alookup m key

/-- Python `dict.__setitem__`: replace the value at an existing key in
place, otherwise append the new entry (insertion-ordered dicts). -/
def dictSet {α : Type} : List (String × α) → String → α → List (String × α)
  | [], key, v => [(key, v)]
  | (k, w) :: m, key, v =>
    if k = key then (k, v) :: m else (k, w) :: dictSet m key v

/-- Deterministic rendering of CPython `set.add`: no-op on a present
element, append otherwise.  Faithful in membership; the iteration order of
a real CPython set is hash-table order, which `SetIns` models. -/
def pySetAdd (l : List String) (k : String) : List String :=
  if k ∈ l then l else l ++ [k]

/-- What CPython actually guarantees about `s.add(k)` observed through
iteration: the new iteration order is some duplicate-free enumeration of
`old ∪ {k}`. -/
def SetIns (old new : List String) (k : String) : Prop :=
  new.Nodup ∧ ∀ x, x ∈ new ↔ (x ∈ old ∨ x = k)

/-- State of `SearchIndex.__init__`: all four mappings, as
insertion-ordered association lists. -/
structure SearchIndex where
  endpoints : List (String × Endpoint) := []
  inverted_index : List (String × List String) := []
  api_info : List (String × ApiInfo) := []
  api_sections : List (String × List (String × List String)) := []
deriving DecidableEq

def emptyIndex : SearchIndex := {}

/-- One step of the indexing loop `self.inverted_index[token].add(key)`
(`defaultdict(set)`: a missing token gets a fresh set first). -/
def ddAdd (m : List (String × List String)) (t k : String) :
    List (String × List String) :=
  match alookup m t with
  | some l => dictSet m t (pySetAdd l k)
  | none => m ++ [(t, [k])]

/-- The `api_sections` update `self.api_sections[e.api_name][e.section].append(key)`
(nested `defaultdict`s: missing levels are created). -/
def addSection (m : List (String × List (String × List String)))
    (api sec key : String) : List (String × List (String × List String)) :=
  let inner := (alookup m api).getD []
  let keys := (alookup inner sec).getD []
  dictSet m api (dictSet inner sec (keys ++ [key]))

/-- The `api_info` update block of `add_endpoint`. -/
def addInfo (m : List (String × ApiInfo)) (e : Endpoint) :
    List (String × ApiInfo) :=
  let info0 :=
    match alookup m e.api_name with
    | some ai => ai
    | none => { name := e.api_name, base_url := e.base_url,
                auth_header := e.auth_header : ApiInfo }
  dictSet m e.api_name
    { info0 with
      endpoint_count := info0.endpoint_count + 1,
      sections :=
        if e.sectionName ∈ info0.sections then info0.sections
        else info0.sections ++ [e.sectionName] }

/-- `SearchIndex.add_endpoint` (deterministic set model). -/
def addEndpoint (s : SearchIndex) (e : Endpoint) : SearchIndex :=
  let key := e.key
  { endpoints := dictSet s.endpoints key e
    inverted_index :=
      (tokenize e.searchable_text).foldl (fun m t => ddAdd m t key)
        s.inverted_index
    api_info := addInfo s.api_info e
    api_sections := addSection s.api_sections e.api_name e.sectionName key }

/-- Truthiness of an optional-string argument (Python `if api_filter:`). -/
def optTruthy : Option String → Option String
  | none => none
  | some f => if f = "" then none else some f

/-- The `api_filter` skip test of `search`:
`api_filter and api_filter.lower() not in endpoint.api_name.lower()`. -/
def apiSkip (af : Option String) (e : Endpoint) : Bool :=
  match optTruthy af with
  | none => false
  | some f => ! containsS (lowerS f) (lowerS e.api_name)

/-- The `method_filter` skip test of `search`:
`method_filter and endpoint.method.upper() != method_filter.upper()`. -/
def methodSkip (mf : Option String) (e : Endpoint) : Bool :=
  match optTruthy mf with
  | none => false
  | some f => upperS e.method ≠ upperS f

/-- Score contribution of one (token, endpoint) pair that passed the
filters: base `1.0`, `+2.0` on a path hit, `+1.5` on a summary hit,
`+1.0` on a section hit.  (Query tokens are already lowercase.) -/
def contrib (tok : String) (e : Endpoint) : ℚ :=
  1 + (if containsS tok (lowerS e.path) then 2 else 0)
    + (if containsS tok (lowerS e.summary) then 3/2 else 0)
    + (if containsS tok (lowerS e.sectionName) then 1 else 0)

/-- `scores[key] += v` on the local `defaultdict(float)`. -/
def bump (m : List (String × ℚ)) (k : String) (v : ℚ) : List (String × ℚ) :=
  match alookup m k with
  | some q => dictSet m k (q + v)
  | none => m ++ [(k, v)]

/-- Body of the inner scoring loop of `search` for one posting-set key;
`self.endpoints[key]` is a plain-dict subscript, so a dangling key raises
`KeyError`. -/
def scoreKey (s : SearchIndex) (af mf : Option String) (tok : String)
    (acc : List (String × ℚ)) (key : String) :
    Except Unit (List (String × ℚ)) :=
  match alookup s.endpoints key with
  | none => .error ()
  | some e =>
    if apiSkip af e || methodSkip mf e then .ok acc
    else .ok (bump acc key (contrib tok e))

/-- Posting list retrieval `self.inverted_index.get(token, [])`. -/
def postingOf (s : SearchIndex) (tok : String) : List String :=
  (alookup s.inverted_index tok).getD []

/-- Scoring loop over one query token's posting set. -/
def scoreToken (s : SearchIndex) (af mf : Option String)
    (acc : List (String × ℚ)) (tok : String) :
    Except Unit (List (String × ℚ)) :=
  (postingOf s tok).foldlM (scoreKey s af mf tok) acc

/-- The whole scoring phase of `search`. -/
def computeScores (s : SearchIndex) (af mf : Option String)
    (toks : List String) : Except Unit (List (String × ℚ)) :=
  toks.foldlM (scoreToken s af mf) []

/-- Python list slice `l[:limit]` (`limit` may be negative). -/
def pySlice {α : Type} (l : List α) (limit : Int) : List α :=
  if 0 ≤ limit then l.take limit.toNat
  else l.take (l.length - (-limit).toNat)

/-- Comparator of `sorted(scores.items(), key=lambda x: -x[1])`: descending
by score. -/
def scoreLE (a b : String × ℚ) : Bool := decide (b.2 ≤ a.2)

/-- Stable insertion step: `a` goes before the first element whose score
is `≤` its own, i.e. after every earlier element that ties or beats it. -/
def insertDesc (a : String × ℚ) : List (String × ℚ) → List (String × ℚ)
  | [] => [a]
  | b :: l => if b.2 ≤ a.2 then a :: b :: l else b :: insertDesc a l

/-- Python's `sorted(..., key=lambda x: -x[1])`.  `list.sort` is stable,
and a stable sort with respect to a total preorder is a unique function
of its input, so this structurally recursive insertion sort (sortedness,
permutation and stability are proved below) denotes it exactly. -/
def sortDesc : List (String × ℚ) → List (String × ℚ)
  | [] => []
  | a :: l => insertDesc a (sortDesc l)

/-- Ranking phase of `search`: stable descending sort, then truncation. -/
def rankKeys (scores : List (String × ℚ)) (limit : Int) :
    List (String × ℚ) :=
  pySlice (sortDesc scores) limit

/-- `SearchIndex.search`. -/
def search (s : SearchIndex) (query : String) (af mf : Option String)
    (limit : Int) : Except Unit (List Endpoint) :=
  let toks := tokenize query
  if toks.isEmpty then .ok []
  else do
    let scores ← computeScores s af mf toks
    (rankKeys scores limit).mapM (fun kv =>
      match alookup s.endpoints kv.1 with
      | some e => Except.ok e
      | none => Except.error ())

/-- `SearchIndex.get_endpoint`: exact key lookup with uppercased method. -/
def getEndpoint (s : SearchIndex) (api_name path method : String) :
    Option Endpoint :=
  alookup s.endpoints (api_name ++ ":" ++ upperS method ++ ":" ++ path)

/-- A `defaultdict` subscript in state-passing form: a missing key is
inserted with the default before its value is returned. -/
def ddGet {α : Type} (m : List (String × α)) (k : String) (dflt : α) :
    α × List (String × α) :=
  match alookup m k with
  | some v => (v, m)
  | none => (dflt, m ++ [(k, dflt)])

/-- `SearchIndex.get_api_endpoints`, in state-passing form: the two
`defaultdict` subscripts (`self.api_sections[api_name]` and
`sections[matching_section]`) are modelled by `ddGet` so that the frame
property is a statement, not a typing accident. -/
def getApiEndpointsSt (s : SearchIndex) (api_name : String)
    (sec : Option String) : List Endpoint × SearchIndex :=
  if (alookup s.api_sections api_name).isNone then ([], s)
  else
    let p := ddGet s.api_sections api_name []
    let s₁ : SearchIndex := { s with api_sections := p.2 }
    match optTruthy sec with
    | some q =>
      match p.1.find? (fun kv => containsS (lowerS q) (lowerS kv.1)) with
      | none => ([], s₁)
      | some kv =>
        let p2 := ddGet p.1 kv.1 []
        let s₂ : SearchIndex :=
          { s₁ with api_sections := dictSet p.2 api_name p2.2 }
        (p2.1.filterMap (fun k => alookup s₂.endpoints k), s₂)
    | none =>
      let keys := (p.1.map (fun kv => kv.2)).flatten
      (keys.filterMap (fun k => alookup s₁.endpoints k), s₁)

/-- `SearchIndex.get_api_endpoints`, result only. -/
def getApiEndpoints (s : SearchIndex) (api_name : String)
    (sec : Option String) : List Endpoint :=
  (getApiEndpointsSt s api_name sec).1

/-- `SearchIndex.list_apis`. -/
def listApis (s : SearchIndex) : List ApiInfo :=
  s.api_info.map (fun kv => kv.2)

/-- `SearchIndex.list_sections`, in state-passing form (one guarded
`defaultdict` subscript). -/
def listSectionsSt (s : SearchIndex) (api_name : String) :
    List String × SearchIndex :=
  if (alookup s.api_sections api_name).isNone then ([], s)
  else
    let p := ddGet s.api_sections api_name []
    (p.1.map (fun kv => kv.1), { s with api_sections := p.2 })

end KeboolaDocs

namespace KeboolaDocs

/-! ## API Blueprint parser (`parsers/apib.py`)

The five `re` patterns of `ApibParser` are modelled as character-level
scanners with the exact backtracking behaviour of Python's engine on
these patterns (`MULTILINE` anchors at line starts; `[^\]]+`, `[^)]+`
and — under `DOTALL` — `.` may cross newlines; lazy groups try the
shortest extension first; greedy optional groups try the long branch
first).  Every scanner returns the match data plus the information
`finditer`/`split` consume: start and end offsets. -/

/-- HTTP verbs of the resource/action header alternation. -/
def httpVerbs : List Chars :=
  ["GET", "POST", "PUT", "PATCH", "DELETE"].map String.toList

/-- Tail of a header bracket: `[^\]]+\]` — at least one non-`]`
character (newlines included) up to the first `]`.  Returns the path
text and the number of characters consumed. -/
def pathScan (cs : Chars) : Option (Chars × Nat) :=
  let run := cs.takeWhile (fun c => c ≠ ']')
  if run.isEmpty then none
  else if run.length < cs.length then some (run, run.length + 1)
  else none

/-- Bracket body of `RESOURCE_PATTERN`: `(?:(GET|POST|PUT|PATCH|DELETE) )?([^\]]+)\]`.
The optional verb branch is tried first; on its failure the verb text is
consumed by the path instead. -/
def bracketRes (cs : Chars) : Option (Option Chars × Chars × Nat) :=
  match httpVerbs.findSome? (fun m =>
      if (m ++ [' ']).isPrefixOf cs then
        (pathScan (cs.drop (m.length + 1))).map
          (fun pr => (m, pr.1, m.length + 1 + pr.2))
      else none) with
  | some (m, p, n) => some (some m, p, n)
  | none => (pathScan cs).map (fun pr => (none, pr.1, pr.2))

/-- Bracket body of `ACTION_PATTERN`: `(GET|POST|PUT|PATCH|DELETE)(?: ([^\]]+))?\]`.
The verb is mandatory; the ` path` extension is tried greedily, the bare
`]` close is the fallback. -/
def bracketAct (cs : Chars) : Option (Chars × Option Chars × Nat) :=
  httpVerbs.findSome? (fun m =>
    if m.isPrefixOf cs then
      let after := cs.drop m.length
      match (if after.head? = some ' ' then pathScan (after.drop 1) else none) with
      | some (p, n) => some (m, some p, m.length + 1 + n)
      | none =>
        if after.head? = some ']' then some (m, none, m.length + 1) else none
    else none)

/-- A `RESOURCE_PATTERN` match: `^## (.+?) \[(?:(METHOD) )?(path)\]`. -/
structure ResHead where
  rstart : Nat
  rstop : Nat
  name : Chars
  method : Option Chars
  path : Chars
deriving DecidableEq

/-- An `ACTION_PATTERN` match: `^### (.+?) \[(METHOD)(?: (path))?\]`. -/
structure ActHead where
  astart : Nat
  astop : Nat
  name : Chars
  method : Chars
  path : Option Chars
deriving DecidableEq

/-- Lazy scan for the resource name `(.+?) \[…`: the shortest nonempty
newline-free name followed by a ` [` whose bracket parses wins. -/
def resNameLoop (lineStart : Nat) : Chars → Chars → Nat → Option ResHead
  | rest, acc, pos =>
    let tryHere : Option ResHead :=
      if acc.isEmpty then none
      else if (' ' :: '[' :: []).isPrefixOf rest then
        (bracketRes (rest.drop 2)).map
          (fun mpn => ⟨lineStart, pos + 2 + mpn.2.2, acc.reverse, mpn.1, mpn.2.1⟩)
      else none
    match tryHere with
    | some r => some r
    | none =>
      match rest with
      | [] => none
      | c :: t =>
        if c = '\n' then none else resNameLoop lineStart t (c :: acc) (pos + 1)

/-- Lazy scan for the action name, like `resNameLoop`. -/
def actNameLoop (lineStart : Nat) : Chars → Chars → Nat → Option ActHead
  | rest, acc, pos =>
    let tryHere : Option ActHead :=
      if acc.isEmpty then none
      else if (' ' :: '[' :: []).isPrefixOf rest then
        (bracketAct (rest.drop 2)).map
          (fun mpn => ⟨lineStart, pos + 2 + mpn.2.2, acc.reverse, mpn.1, mpn.2.1⟩)
      else none
    match tryHere with
    | some r => some r
    | none =>
      match rest with
      | [] => none
      | c :: t =>
        if c = '\n' then none else actNameLoop lineStart t (c :: acc) (pos + 1)

/-- Attempt a resource-header match anchored at position `i`. -/
def tryResAt (cs : Chars) (i : Nat) : Option ResHead :=
  let s := cs.drop i
  if ("## ".toList).isPrefixOf s then resNameLoop i (s.drop 3) [] (i + 3)
  else none

/-- Attempt an action-header match anchored at position `i`. -/
def tryActAt (cs : Chars) (i : Nat) : Option ActHead :=
  let s := cs.drop i
  if ("### ".toList).isPrefixOf s then actNameLoop i (s.drop 4) [] (i + 4)
  else none

/-- Positions where `re.MULTILINE`'s `^` can anchor. -/
def lineStartsOf (cs : Chars) : List Nat :=
  0 :: (nlPositions cs).map (fun i => i + 1)

/-- The non-overlapping scan of `finditer` for resource headers. -/
def resScan (cs : Chars) : List Nat → Nat → List ResHead
  | [], _ => []
  | st :: rest, minPos =>
    if st < minPos then resScan cs rest minPos
    else
      match tryResAt cs st with
      | some r => r :: resScan cs rest r.rstop
      | none => resScan cs rest minPos

/-- The non-overlapping scan of `finditer` for action headers. -/
def actScan (cs : Chars) : List Nat → Nat → List ActHead
  | [], _ => []
  | st :: rest, minPos =>
    if st < minPos then actScan cs rest minPos
    else
      match tryActAt cs st with
      | some a => a :: actScan cs rest a.astop
      | none => actScan cs rest minPos

/-- All resource-header matches of a group body, in document order. -/
def findRes (cs : Chars) : List ResHead := resScan cs (lineStartsOf cs) 0

/-- All action-header matches of a resource window, in document order. -/
def findAct (cs : Chars) : List ActHead := actScan cs (lineStartsOf cs) 0

/-- Match of one full `# Group (.+)$` header line. -/
def isGroupHeaderLine (l : Chars) : Option Chars :=
  if ("# Group ".toList).isPrefixOf l ∧ 8 < l.length then some (l.drop 8)
  else none

/-- Accumulating pass realizing `GROUP_PATTERN.split`: emits
`(name, piece)` pairs where each piece spans from the end of its header
match (just before the newline) to the start of the next header line. -/
def groupAccum : List Chars → Option (Chars × List Chars) → List (Chars × Chars)
  | [], none => []
  | [], some (n, acc) => [(n, joinLinesC ([] :: acc.reverse))]
  | l :: ls, st =>
    match isGroupHeaderLine l with
    | some name =>
      match st with
      | none => groupAccum ls (some (name, []))
      | some (n, acc) =>
        (n, joinLinesC (([] : Chars) :: (acc.reverse ++ [[]]))) ::
          groupAccum ls (some (name, []))
    | none =>
      match st with
      | none => groupAccum ls none
      | some (n, acc) => groupAccum ls (some (n, l :: acc))

/-- The `(group name, group body)` pairs consumed by `ApibParser.parse`
(the text before the first group header is dropped, as in the source). -/
def groupPieces (cs : Chars) : List (Chars × Chars) :=
  groupAccum (splitLinesC cs) none

/-- One repetition of the block body `(?:\s+\+.+\n?)+`: leading
whitespace (which may span blank lines), a `+`, at least one non-newline
character, and the trailing newline when present. -/
def pRep (cs : Chars) : Option (Chars × Chars) :=
  let r := wsRun cs
  if r = 0 then none
  else
    match cs.drop r with
    | '+' :: t =>
      let line := t.takeWhile (fun c => c ≠ '\n')
      if line.isEmpty then none
      else
        let rest := t.drop line.length
        match rest with
        | '\n' :: t2 => some (cs.take r ++ '+' :: (line ++ ['\n']), t2)
        | _ => some (cs.take r ++ '+' :: line, rest)
    | _ => none

/-- Greedy iteration of `pRep`; each step consumes at least two
characters, so the remaining length is ample fuel. -/
def pBlockLoop : Nat → Chars → Chars → Chars
  | 0, _, acc => acc
  | fuel + 1, cs, acc =>
    match pRep cs with
    | none => acc
    | some (c, rest) => pBlockLoop fuel rest (acc ++ c)

/-- The captured group `((?:\s+\+.+\n?)+)`, at a fixed start. -/
def pBlock (cs : Chars) : Option Chars :=
  (pRep cs).map (fun pr => pr.1 ++ pBlockLoop pr.2.length pr.2 [])

/-- Capture of `re.search(header + r"\s*\n((?:\s+\+.+\n?)+)", content)`:
leftmost header occurrence whose continuation matches; the greedy `\s*`
places the mandatory newline as late as possible. -/
def blockCapture (cs header : Chars) : Option Chars :=
  (occList header cs).findSome? (fun i =>
    let after := cs.drop (i + header.length)
    let w := after.take (wsRun after)
    ((nlPositions w).reverse).findSome? (fun p => pBlock (after.drop (p + 1))))

/-- Word characters of `\w` (ASCII). -/
def isWordChar (c : Char) : Bool :=
  ('a' ≤ c && c ≤ 'z') || ('A' ≤ c && c ≤ 'Z') || ('0' ≤ c && c ≤ '9') || c == '_'

/-- Captured groups of one parameter/attribute entry line; absent
optional groups are `[]`, matching the source's `or ""`. -/
structure PEntry where
  name : Chars
  typeInfo : Chars
  descr : Chars
deriving DecidableEq

/-- End-of-line test for the `$` anchor under `re.MULTILINE`. -/
def lineEndHere (cs : Chars) : Bool := cs.isEmpty || cs.head? == some '\n'

/-- The optional description tail `(?: - (.+))?$`. -/
def tailB (cs : Chars) : Option (Chars × Chars) :=
  match (if (' ' :: '-' :: [' ']).isPrefixOf cs then
      let d := (cs.drop 3).takeWhile (fun c => c ≠ '\n')
      if d.isEmpty then none else some (d, cs.drop (3 + d.length))
    else none) with
  | some r => some r
  | none => if lineEndHere cs then some ([], cs) else none

/-- The optional type-info tail `(?: \(([^)]+)\))?`: the run may cross
newlines, up to the first `)`. -/
def tailA (cs : Chars) : Option (Chars × Chars) :=
  if (' ' :: ['(']).isPrefixOf cs then
    let run := (cs.drop 2).takeWhile (fun c => c ≠ ')')
    if run.isEmpty then none
    else if run.length < (cs.drop 2).length then
      some (run, cs.drop (2 + run.length + 1))
    else none
  else none

/-- Both optional tails plus the `$` anchor, with the engine's
backtracking order (type-info branch abandoned when no description/line
end follows it). -/
def pTail (cs : Chars) : Option (Chars × Chars × Chars) :=
  match tailA cs with
  | some (ti, rest) =>
    match tailB rest with
    | some (d, rest2) => some (ti, d, rest2)
    | none =>
      match tailB cs with
      | some (d, rest2) => some ([], d, rest2)
      | none => none
  | none =>
    match tailB cs with
    | some (d, rest2) => some ([], d, rest2)
    | none => none

/-- The `ATTR_PATTERN` name extension `(?:\[\w*\])?`. -/
def attrNameExt (w rest : Chars) : Chars × Chars :=
  match rest with
  | '[' :: t =>
    let w2 := t.takeWhile isWordChar
    match t.drop w2.length with
    | ']' :: t2 => (w ++ '[' :: (w2 ++ [']']), t2)
    | _ => (w, rest)
  | _ => (w, rest)

/-- Attempt one `PARAM_PATTERN`/`ATTR_PATTERN` match anchored at `i`;
returns the entry and the match end. -/
def tryEntryAt (isAttr : Bool) (cs : Chars) (i : Nat) : Option (PEntry × Nat) :=
  let s := cs.drop i
  let r := wsRun s
  if r = 0 then none
  else
    match s.drop r with
    | '+' :: ' ' :: t =>
      let w := t.takeWhile isWordChar
      if w.isEmpty then none
      else
        let t1 := t.drop w.length
        let na := if isAttr then attrNameExt w t1 else (w, t1)
        (pTail na.2).map (fun tdr =>
          (⟨na.1, tdr.1, tdr.2.1⟩, cs.length - tdr.2.2.length))
    | _ => none

/-- The `finditer` scan for entry lines. -/
def entryScan (isAttr : Bool) (cs : Chars) : List Nat → Nat → List PEntry
  | [], _ => []
  | st :: rest, minPos =>
    if st < minPos then entryScan isAttr cs rest minPos
    else
      match tryEntryAt isAttr cs st with
      | some (e, stop) => e :: entryScan isAttr cs rest stop
      | none => entryScan isAttr cs rest minPos

/-- All entries of a captured block. -/
def entriesOf (isAttr : Bool) (pc : Chars) : List PEntry :=
  entryScan isAttr pc (lineStartsOf pc) 0

/-- The recognized type names, in the source's probe order. -/
def typeNames : List Chars :=
  ["number", "integer", "boolean", "string", "array", "object"].map String.toList

/-- Type extraction: first listed name occurring in the lowered
type-info, else `"string"`. -/
def typeOfInfo (tiLower : Chars) : String :=
  match typeNames.find? (fun t => containsSub t tiLower) with
  | some t => String.mk t
  | none => "string"

/-- Construction of a path/query `Parameter` from one entry
(`_parse_parameters` loop body); `window` is the endpoint's content
window, probed for the literal `\x7bname\x7d` token. -/
def mkParam (window : Chars) (e : PEntry) : Parameter :=
  let ti := lowerC e.typeInfo
  { name := String.mk e.name
    location :=
      if containsSub ('{' :: (e.name ++ ['}'])) window then "path" else "query"
    type := typeOfInfo ti
    required := containsSub ("required".toList) ti
    description := String.mk (pyStrip e.descr) }

/-- Construction of a body `Parameter` from one entry
(`_parse_attributes` loop body). -/
def mkAttr (e : PEntry) : Parameter :=
  let ti := lowerC e.typeInfo
  { name := String.mk e.name
    location := "body"
    type := typeOfInfo ti
    required :=
      containsSub ("required".toList) ti && ! containsSub ("optional".toList) ti
    description := String.mk (pyStrip e.descr) }

/-- `ApibParser._parse_parameters`. -/
def parseParams (window : Chars) : List Parameter :=
  match blockCapture window ("+ Parameters".toList) with
  | none => []
  | some pc => (entriesOf false pc).map (mkParam window)

/-- `ApibParser._parse_attributes`. -/
def parseAttrs (window : Chars) : List Parameter :=
  match blockCapture window ("+ Attributes".toList) with
  | none => []
  | some pc => (entriesOf true pc).map mkAttr

/-- `ApibParser._extract_description`: stripped lines before the first
`+`/`#` line, space-joined. -/
def extractDescription (window : Chars) : String :=
  String.intercalate " "
    (((splitLinesC window).takeWhile (fun l =>
        let st := pyStrip l
        ¬ (st.head? = some '+' ∨ st.head? = some '#'))).filterMap
      (fun l =>
        let st := pyStrip l
        if st.isEmpty then none else some (String.mk st)))

/-- Capture of the `DOTALL` example pattern
`\+ SECTION.*?\n.*?\+ Body\s*\n((?:\s+.+\n?)+)`: under `DOTALL` the
group's first repetition swallows the entire remainder, so the capture
is the whole suffix whenever it starts with whitespace and holds at
least two characters. -/
def exCapture (cs sect : Chars) : Option Chars :=
  (occList ('+' :: ' ' :: sect) cs).findSome? (fun i =>
    let a0 := cs.drop (i + 2 + sect.length)
    (nlPositions a0).findSome? (fun j =>
      let a1 := a0.drop (j + 1)
      (occList ("+ Body".toList) a1).findSome? (fun k =>
        let a2 := a1.drop (k + 6)
        let w := a2.take (wsRun a2)
        ((nlPositions w).reverse).findSome? (fun p =>
          match a2.drop (p + 1) with
          | c1 :: _ :: _ => if isWS c1 then some (a2.drop (p + 1)) else none
          | _ => none))))

/-- Leading-indentation width of one line. -/
def indentOf (l : Chars) : Nat := l.length - (pyLstrip l).length

/-- `ApibParser._extract_example`.  The de-indentation step computes
`min(...)` over the non-blank captured lines; a capture consisting of
blank lines only makes that an empty sequence, so CPython raises
`ValueError` — the `.error ()` branch. -/
def extractExample (window sect : Chars) : Except Unit (Option String) :=
  match exCapture window sect with
  | none => Except.ok none
  | some ex =>
    let lines := splitLinesC ex
    match (lines.filter (fun l => ! (pyStrip l).isEmpty)).map indentOf with
    | [] => Except.error ()
    | v :: vs =>
      let mi := vs.foldl Nat.min v
      let cleaned :=
        joinLinesC (lines.map (fun l => if mi < l.length then l.drop mi else l))
      Except.ok (some (String.mk (pyStrip cleaned)))

/-- `ApibParser._create_endpoint`. -/
def createEndpoint (apiName : String) (ah bu : Option String)
    (sect name method path window : Chars) : Except Unit Endpoint := do
  let ps := parseParams window
  let ats := parseAttrs window
  let reqEx ← extractExample window ("Request".toList)
  let respEx ← extractExample window ("Response".toList)
  Except.ok
    { api_name := apiName
      sectionName := String.mk sect
      path := String.mk path
      method := String.mk method
      summary := String.mk name
      description := extractDescription window
      parameters := ps ++ ats
      request_example := reqEx
      response_example := respEx
      auth_header := ah
      base_url := bu }

/-- Pair each header with its content window (up to the next header's
start, or the end of the enclosing text). -/
def windowsBy {β : Type} (content : Chars) (stop start : β → Nat) :
    List β → List (β × Chars)
  | [] => []
  | a :: rest =>
    let e := match rest with | b :: _ => start b | [] => content.length
    (a, sliceC content (stop a) e) :: windowsBy content stop start rest

/-- Action loop of `ApibParser._parse_group`: path defaults to the
resource path, an all-whitespace action name falls back to the resource
name. -/
def actionEndpoints (apiName : String) (ah bu : Option String)
    (gname resName resPath : Chars) (pairs : List (ActHead × Chars)) :
    Except Unit (List Endpoint) :=
  pairs.mapM (fun aw =>
    let an := pyStrip aw.1.name
    let path := match aw.1.path with | some p => pyStrip p | none => resPath
    let nm := if an.isEmpty then resName else an
    createEndpoint apiName ah bu gname nm aw.1.method path aw.2)

/-- `ApibParser._parse_group`. -/
def parseGroup (apiName : String) (ah bu : Option String)
    (gname content : Chars) : Except Unit (List Endpoint) := do
  let rws := windowsBy content (fun r => r.rstop) (fun r => r.rstart) (findRes content)
  let ess ← rws.mapM (fun rw => do
    let rname := pyStrip rw.1.name
    let rpath := pyStrip rw.1.path
    let first ←
      match rw.1.method with
      | some m => do
          let e ← createEndpoint apiName ah bu gname rname m rpath rw.2
          Except.ok [e]
      | none => Except.ok []
    let acts ← actionEndpoints apiName ah bu gname rname rpath
      (windowsBy rw.2 (fun a => a.astop) (fun a => a.astart) (findAct rw.2))
    Except.ok (first ++ acts))
  Except.ok ess.flatten

/-- `ApibParser.parse`. -/
def parseApib (apiName : String) (ah bu : Option String) (content : String) :
    Except Unit (List Endpoint) := do
  let ess ← (groupPieces content.data).mapM
    (fun g => parseGroup apiName ah bu (pyStrip g.1) g.2)
  Except.ok ess.flatten

end KeboolaDocs

namespace KeboolaDocs

/-! ## OpenAPI/Swagger parser (`parsers/openapi.py`)

The already-deserialized document tree is a `Json` value.  Numbers are
modelled as integers and `str()`/`json.dumps` of composite values are
simplified renderings: no claim observes these texts, only their
presence.  Python dynamic failures (`AttributeError` on `.get`/`.items`
of a non-dict, `TypeError`/`KeyError`/`IndexError` on subscripts) are
`.error ()`. -/

inductive Json where
  | null
  | bool (b : Bool)
  | num (n : Int)
  | str (s : String)
  | arr (xs : List Json)
  | obj (fields : List (String × Json))

/-- Null test (used for `x is not None` checks on `.get` results). -/
def Json.isNull : Json → Bool
  | .null => true
  | _ => false

/-- Python `==` between a string and a JSON value (list membership test
`k in xs` only ever equates strings with strings). -/
def jStrMem (k : String) (xs : List Json) : Bool :=
  xs.any (fun x => match x with | .str s => s = k | _ => false)

/-- Python truthiness of a deserialized JSON value. -/
def Json.truthy : Json → Bool
  | .null => false
  | .bool b => b
  | .num n => n ≠ 0
  | .str s => s ≠ ""
  | .arr xs => ! xs.isEmpty
  | .obj fs => ! fs.isEmpty

/-- Python `j.get(k, d)`: only dicts have `.get`. -/
def jGetD (j : Json) (k : String) (d : Json) : Except Unit Json :=
  match j with
  | .obj fs => .ok ((alookup fs k).getD d)
  | _ => .error ()

/-- Python `k in j` for a string key: dict-key, substring or list
membership; other receivers raise `TypeError`. -/
def jIn (j : Json) (k : String) : Except Unit Bool :=
  match j with
  | .obj fs => .ok (alookup fs k).isSome
  | .str s => .ok (containsS k s)
  | .arr xs => .ok (jStrMem k xs)
  | _ => .error ()

/-- Python `j[k]` for a string key. -/
def jSub (j : Json) (k : String) : Except Unit Json :=
  match j with
  | .obj fs =>
    match alookup fs k with
    | some v => .ok v
    | none => .error ()
  | _ => .error ()

/-- Python `j[0]`. -/
def pyIndex0 : Json → Except Unit Json
  | .arr (x :: _) => .ok x
  | .str s =>
    match s.data with
    | c :: _ => .ok (.str (String.mk [c]))
    | [] => .error ()
  | _ => .error ()

/-- Python `str(x)` as used in f-strings and `str(default)`.  Exact for
the scalar values any sane specification holds; composite values get a
placeholder rendering (no claim observes them). -/
def pyStrOf : Json → String
  | .null => "None"
  | .bool b => if b then "True" else "False"
  | .num n => toString n
  | .str s => s
  | .arr _ => "[...]"
  | .obj _ => "\x7b...\x7d"

mutual

/-- Simplified `json.dumps` stand-in (claims never inspect the text). -/
def jDump : Json → String
  | .null => "null"
  | .bool b => if b then "true" else "false"
  | .num n => toString n
  | .str s => "\"" ++ s ++ "\""
  | .arr xs => "[" ++ jDumpList xs ++ "]"
  | .obj fs => "\x7b" ++ jDumpFields fs ++ "\x7d"

def jDumpList : List Json → String
  | [] => ""
  | [x] => jDump x
  | x :: xs => jDump x ++ ", " ++ jDumpList xs

def jDumpFields : List (String × Json) → String
  | [] => ""
  | [kv] => "\"" ++ kv.1 ++ "\": " ++ jDump kv.2
  | kv :: fs => "\"" ++ kv.1 ++ "\": " ++ jDump kv.2 ++ ", " ++ jDumpFields fs

end

/-- Pydantic coercion into a `str` field (v2 lax mode does not accept
non-strings here). -/
def asStr : Json → Except Unit String
  | .str s => .ok s
  | _ => .error ()

/-- Pydantic coercion into a `bool` field. -/
def asBool : Json → Except Unit Bool
  | .bool b => .ok b
  | _ => .error ()

/-- Pydantic coercion into an `Optional[str]` field holding a resolved
base-URL value. -/
def asOptStrJ : Option Json → Except Unit (Option String)
  | none => .ok none
  | some .null => .ok none
  | some (.str s) => .ok (some s)
  | some _ => .error ()

/-- Swagger-2.x fallback branch of the base-URL resolution:
`scheme://host + basePath` from the first listed scheme. -/
def hostBranch (spec : Json) : Except Unit (Option Json) := do
  let hasHost ← jIn spec "host"
  if hasHost then do
    let schemes ← jGetD spec "schemes" (.arr [.str "https"])
    let scheme ← pyIndex0 schemes
    let basePath ← jGetD spec "basePath" (.str "")
    let host ← jSub spec "host"
    Except.ok (some (.str (pyStrOf scheme ++ "://" ++ pyStrOf host ++ pyStrOf basePath)))
  else Except.ok none

/-- Base-URL resolution of `OpenApiParser.parse` (lines 45–55): a truthy
caller override wins, else OpenAPI 3.x `servers[0].get("url", "")`,
else the Swagger 2.x reconstruction, else `None`. -/
def resolveBaseUrl (override : Option String) (spec : Json) :
    Except Unit (Option Json) := do
  match optTruthy override with
  | some u => Except.ok (some (.str u))
  | none =>
    let hasServers ← jIn spec "servers"
    if hasServers then do
      let sv ← jSub spec "servers"
      if sv.truthy then do
        let first ← pyIndex0 sv
        let url ← jGetD first "url" (.str "")
        Except.ok (some url)
      else hostBranch spec
    else hostBranch spec

/-- Elementwise view of Python `for x in j`: lists yield elements,
strings their characters, dicts their keys; other receivers raise. -/
def iterElems : Json → Except Unit (List Json)
  | .arr xs => .ok xs
  | .str s => .ok (s.data.map (fun c => Json.str (String.mk [c])))
  | .obj fs => .ok (fs.map (fun kv => Json.str kv.1))
  | _ => .error ()

/-- Loop body of `OpenApiParser._parse_parameters`: `$ref` entries are
skipped, the schema defaults to the parameter object itself. -/
def opParam (p : Json) : Except Unit (Option Parameter) := do
  let isRef ← jIn p "$ref"
  if isRef then Except.ok none
  else do
    let nameJ ← jGetD p "name" (.str "")
    let locJ ← jGetD p "in" (.str "query")
    let reqJ ← jGetD p "required" (.bool false)
    let descJ ← jGetD p "description" (.str "")
    let schema ← jGetD p "schema" p
    let typJ ← jGetD schema "type" (.str "string")
    let dflt ← jGetD schema "default" .null
    let ex ← jGetD schema "example" .null
    let name ← asStr nameJ
    let loc ← asStr locJ
    let req ← asBool reqJ
    let desc ← asStr descJ
    let typ ← asStr typJ
    Except.ok (some
      { name := name, location := loc, type := typ, required := req,
        description := desc,
        default := if dflt.isNull then none else some (pyStrOf dflt),
        exampleStr := if ex.isNull then none else some (pyStrOf ex) })

/-- `OpenApiParser._parse_parameters`. -/
def parseParamList (ps : Json) : Except Unit (List Parameter) := do
  let elems ← iterElems ps
  let opts ← elems.mapM opParam
  Except.ok (opts.filterMap id)

/-- First content type present in a media map (`if ct in content: … break`). -/
def firstKeyHit (j : Json) : List String → Except Unit (Option String)
  | [] => .ok none
  | ct :: rest => do
    let b ← jIn j ct
    if b then Except.ok (some ct) else firstKeyHit j rest

/-- One property of an expanded request-body schema. -/
def bodyProp (requiredProps : Json) (kv : String × Json) :
    Except Unit Parameter := do
  let req ← jIn requiredProps kv.1
  let typJ ← jGetD kv.2 "type" (.str "string")
  let descJ ← jGetD kv.2 "description" (.str "")
  let dflt ← jGetD kv.2 "default" .null
  let ex ← jGetD kv.2 "example" .null
  let typ ← asStr typJ
  let desc ← asStr descJ
  Except.ok
    { name := kv.1, location := "body", type := typ, required := req,
      description := desc,
      default := if dflt.isNull then none else some (pyStrOf dflt),
      exampleStr := if ex.isNull then none else some (pyStrOf ex) }

/-- `OpenApiParser._parse_request_body`. -/
def parseRequestBody (rb : Json) : Except Unit (List Parameter) := do
  let content ← jGetD rb "content" (.obj [])
  let _ ← jGetD rb "required" (.bool false)
  match ← firstKeyHit content
      ["application/json", "application/x-www-form-urlencoded", "*/*"] with
  | none => Except.ok []
  | some ct => do
    let media ← jSub content ct
    let schema ← jGetD media "schema" (.obj [])
    let props ← jGetD schema "properties" (.obj [])
    let reqd ← jGetD schema "required" (.arr [])
    match props with
    | .obj fs => fs.mapM (bodyProp reqd)
    | _ => Except.error ()

/-- Example lookup on one media object: literal `example`, else the
`value` of the first named example, else the schema's `example`. -/
def mediaExample (media : Json) : Except Unit (Option String) := do
  let hasEx ← jIn media "example"
  if hasEx then do
    let e ← jSub media "example"
    Except.ok (some (jDump e))
  else do
    let hasExs ← jIn media "examples"
    let fromNamed ←
      if hasExs then do
        let exs ← jSub media "examples"
        match exs with
        | .obj [] => Except.ok (none : Option String)
        | .obj (kv :: _) => do
          let hasVal ← jIn kv.2 "value"
          if hasVal then do
            let v ← jSub kv.2 "value"
            Except.ok (some (jDump v))
          else Except.ok none
        | _ => Except.error ()
      else Except.ok none
    match fromNamed with
    | some s => Except.ok (some s)
    | none => do
      let schema ← jGetD media "schema" (.obj [])
      let hasSE ← jIn schema "example"
      if hasSE then do
        let e ← jSub schema "example"
        Except.ok (some (jDump e))
      else Except.ok none

/-- Content-type loop shared by the example getters (no break on a
present-but-fruitless type: scanning continues). -/
def exampleScan (content : Json) : List String → Except Unit (Option String)
  | [] => .ok none
  | ct :: rest => do
    let b ← jIn content ct
    if b then do
      let media ← jSub content ct
      match ← mediaExample media with
      | some s => Except.ok (some s)
      | none => exampleScan content rest
    else exampleScan content rest

/-- `OpenApiParser._get_request_example`. -/
def getRequestExample (op : Json) : Except Unit (Option String) := do
  let hasRB ← jIn op "requestBody"
  if ! hasRB then Except.ok none
  else do
    let rb ← jSub op "requestBody"
    let content ← jGetD rb "content" (.obj [])
    exampleScan content ["application/json", "*/*"]

/-- Status-code loop of `OpenApiParser._get_response_example`, with the
legacy Swagger per-response `examples` fallback. -/
def respCode (responses : Json) : List String → Except Unit (Option String)
  | [] => .ok none
  | code :: rest => do
    let b ← jIn responses code
    if ! b then respCode responses rest
    else do
      let resp ← jSub responses code
      let content ← jGetD resp "content" (.obj [])
      match ← exampleScan content ["application/json", "*/*"] with
      | some s => Except.ok (some s)
      | none => do
        let hasL ← jIn resp "examples"
        if hasL then do
          let exs ← jSub resp "examples"
          match exs with
          | .obj [] => respCode responses rest
          | .obj (kv :: _) => Except.ok (some (jDump kv.2))
          | _ => Except.error ()
        else respCode responses rest

/-- `OpenApiParser._get_response_example`. -/
def getResponseExample (op : Json) : Except Unit (Option String) := do
  let responses ← jGetD op "responses" (.obj [])
  respCode responses ["200", "201", "202", "default"]

/-- The seven recognized HTTP methods, in probe order. -/
def HTTP_METHODS : List String :=
  ["get", "post", "put", "patch", "delete", "head", "options"]

/-- Section choice: `tags[0] if tags else default_section`. -/
def opSect (tags : Json) : Except Unit String :=
  if tags.truthy then do
    let t0 ← pyIndex0 tags
    asStr t0
  else Except.ok "General"

/-- Path-level parameters: `if "parameters" in path_item: …`. -/
def opPathParams (pathItem : Json) : Except Unit (List Parameter) := do
  let hasPP ← jIn pathItem "parameters"
  if hasPP then do
    let pj2 ← jSub pathItem "parameters"
    parseParamList pj2
  else Except.ok []

/-- Request-body parameters: `if "requestBody" in operation: …`. -/
def opBodyParams (op : Json) : Except Unit (List Parameter) := do
  let hasRB ← jIn op "requestBody"
  if hasRB then do
    let rb ← jSub op "requestBody"
    parseRequestBody rb
  else Except.ok []

/-- Construction of one Endpoint by the OpenAPI `parse` loop body. -/
def opEndpoint (apiName : String) (ah : Option String) (bu : Option Json)
    (path : String) (pathItem : Json) (method : String) (op : Json) :
    Except Unit Endpoint := do
  let tags ← jGetD op "tags" (.arr [])
  let sect ← opSect tags
  let inner ← jGetD op "operationId" (.str (upperS method ++ " " ++ path))
  let summaryJ ← jGetD op "summary" inner
  let summary ← asStr summaryJ
  let descJ ← jGetD op "description" (.str "")
  let desc ← asStr descJ
  let pj ← jGetD op "parameters" (.arr [])
  let ps1 ← parseParamList pj
  let ps2 ← opPathParams pathItem
  let ps3 ← opBodyParams op
  let reqEx ← getRequestExample op
  let respEx ← getResponseExample op
  let buS ← asOptStrJ bu
  Except.ok
    { api_name := apiName, sectionName := sect, path := path,
      method := upperS method, summary := summary, description := desc,
      parameters := ps1 ++ ps2 ++ ps3, request_example := reqEx,
      response_example := respEx, auth_header := ah, base_url := buS }

/-- The `for method in HTTP_METHODS` filter over one path item. -/
def methodScan (pathItem : Json) : List String → Except Unit (List (String × Json))
  | [] => .ok []
  | m :: rest => do
    let b ← jIn pathItem m
    if ! b then methodScan pathItem rest
    else do
      let op ← jSub pathItem m
      let more ← methodScan pathItem rest
      Except.ok ((m, op) :: more)

/-- `OpenApiParser.parse`. -/
def parseOpenApi (apiName : String) (ah override : Option String)
    (spec : Json) : Except Unit (List Endpoint) := do
  let bu ← resolveBaseUrl override spec
  let pathsJ ← jGetD spec "paths" (.obj [])
  match pathsJ with
  | .obj paths => do
    let ess ← paths.mapM (fun pkv => do
      let mops ← methodScan pkv.2 HTTP_METHODS
      mops.mapM (fun mo => opEndpoint apiName ah bu pkv.1 pkv.2 mo.1 mo.2))
    Except.ok ess.flatten
  | _ => Except.error ()

end KeboolaDocs

namespace KeboolaDocs

/-! ## Association-list lemmas shared by the index proofs -/

theorem alookup_dictSet {α : Type} (m : List (String × α)) (k : String)
    (v : α) (key : String) :
    alookup (dictSet m k v) key = if key = k then some v else alookup m key := by
  induction m with
  | nil =>
    by_cases h : key = k
    · subst h; simp [dictSet, alookup]
    · simp [dictSet, alookup, h, Ne.symm h]
  | cons kv m ih =>
    obtain ⟨k', w⟩ := kv
    by_cases h1 : k' = k
    · subst h1
      by_cases h2 : key = k'
      · subst h2; simp [dictSet, alookup]
      · simp [dictSet, alookup, h2, Ne.symm h2]
    · by_cases h2 : k' = key
      · subst h2
        simp [dictSet, alookup, h1, Ne.symm h1]
      · simp [dictSet, alookup, h1, h2, ih]

theorem dictSet_self {α : Type} {m : List (String × α)} {k : String} {v : α}
    (h : alookup m k = some v) : dictSet m k v = m := by
  induction m with
  | nil => simp [alookup] at h
  | cons kv m ih =>
    obtain ⟨k', w⟩ := kv
    by_cases h1 : k' = k
    · subst h1
      have h2 : w = v := by simpa [alookup] using h
      simp [dictSet, h2]
    · simp only [alookup, if_neg h1] at h
      simp [dictSet, h1, ih h]

theorem alookup_isSome_of_mem {α : Type} {m : List (String × α)}
    {kv : String × α} (h : kv ∈ m) : (alookup m kv.1).isSome := by
  induction m with
  | nil => cases h
  | cons kv' m ih =>
    rcases List.mem_cons.mp h with h1 | h1
    · subst h1; obtain ⟨k, v⟩ := kv; simp [alookup]
    · obtain ⟨k', v'⟩ := kv'
      by_cases h2 : k' = kv.1
      · simp [alookup, h2]
      · simp [alookup, h2, ih h1]

theorem ddGet_of_isSome {α : Type} {m : List (String × α)} {k : String}
    (d : α) (h : (alookup m k).isSome) : (ddGet m k d).2 = m := by
  unfold ddGet
  cases hm : alookup m k with
  | none => rw [hm] at h; simp at h
  | some v => simp

/-! ## C8: the query surface is read-only

`search`, `get_endpoint` and `list_apis` contain no `defaultdict`
subscript — the only state-mutating operation reachable from the query
surface — so their state-passing forms return the state untouched by
construction; `get_api_endpoints` and `list_sections` do subscript the
`api_sections` defaultdicts, each time behind a membership guard. -/

/-- `search` in state-passing form (no mutation site in its body). -/
def searchSt (s : SearchIndex) (query : String) (af mf : Option String)
    (limit : Int) : Except Unit (List Endpoint) × SearchIndex :=
  (search s query af mf limit, s)

/-- `get_endpoint` in state-passing form (a plain-dict `.get`). -/
def getEndpointSt (s : SearchIndex) (api_name path method : String) :
    Option Endpoint × SearchIndex :=
  (getEndpoint s api_name path method, s)

/-- `list_apis` in state-passing form (`list(dict.values())`). -/
def listApisSt (s : SearchIndex) : List ApiInfo × SearchIndex :=
  (listApis s, s)

theorem getApiEndpointsSt_frame (s : SearchIndex) (api_name : String)
    (sec : Option String) : (getApiEndpointsSt s api_name sec).2 = s := by
  unfold getApiEndpointsSt ddGet
  cases hm : alookup s.api_sections api_name with
  | none => simp [hm]
  | some inner =>
    simp only [hm, Option.isNone_some, Bool.false_eq_true, if_false]
    cases hsec : optTruthy sec with
    | none => simp
    | some q =>
      simp only
      cases hf : inner.find? (fun kv => containsS (lowerS q) (lowerS kv.1)) with
      | none => simp
      | some kv =>
        simp only
        cases hkv2 : alookup inner kv.1 with
        | none =>
          exact absurd (alookup_isSome_of_mem (List.mem_of_find?_eq_some hf))
            (by rw [hkv2]; simp)
        | some keys =>
          simp only [hkv2]
          rw [dictSet_self hm]

theorem listSectionsSt_frame (s : SearchIndex) (api_name : String) :
    (listSectionsSt s api_name).2 = s := by
  unfold listSectionsSt
  cases hm : alookup s.api_sections api_name with
  | none => simp [hm]
  | some inner =>
    have hdd : ddGet s.api_sections api_name [] = (inner, s.api_sections) := by
      unfold ddGet; rw [hm]
    simp [hm, hdd]

end KeboolaDocs

namespace KeboolaDocs

theorem insertDesc_perm (a : String × ℚ) :
    ∀ l : List (String × ℚ), List.Perm (insertDesc a l) (a :: l) := by
  intro l
  induction l with
  | nil => exact List.Perm.refl _
  | cons b l ih =>
    unfold insertDesc
    by_cases h : b.2 ≤ a.2
    · rw [if_pos h]
    · rw [if_neg h]
      exact (ih.cons b).trans (List.Perm.swap a b l)

theorem sortDesc_perm : ∀ l : List (String × ℚ), List.Perm (sortDesc l) l := by
  intro l
  induction l with
  | nil => exact List.Perm.refl _
  | cons a l ih =>
    exact (insertDesc_perm a (sortDesc l)).trans (ih.cons a)

theorem mem_sortDesc {x : String × ℚ} {l : List (String × ℚ)} :
    x ∈ sortDesc l ↔ x ∈ l :=
  (sortDesc_perm l).mem_iff

theorem length_sortDesc (l : List (String × ℚ)) :
    (sortDesc l).length = l.length :=
  (sortDesc_perm l).length_eq

theorem insertDesc_sorted {a : String × ℚ} {l : List (String × ℚ)}
    (h : l.Pairwise (fun p q : String × ℚ => q.2 ≤ p.2)) :
    (insertDesc a l).Pairwise (fun p q : String × ℚ => q.2 ≤ p.2) := by
  induction l with
  | nil => simp [insertDesc]
  | cons b l ih =>
    have hb := List.pairwise_cons.mp h
    unfold insertDesc
    by_cases hle : b.2 ≤ a.2
    · rw [if_pos hle]
      refine List.pairwise_cons.mpr ⟨?_, h⟩
      intro x hx
      rcases List.mem_cons.mp hx with h1 | h1
      · rw [h1]; exact hle
      · exact le_trans (hb.1 x h1) hle
    · rw [if_neg hle]
      refine List.pairwise_cons.mpr ⟨?_, ih hb.2⟩
      intro x hx
      rcases List.mem_cons.mp ((insertDesc_perm a l).mem_iff.mp hx) with h1 | h1
      · rw [h1]; exact le_of_lt (lt_of_not_le hle)
      · exact hb.1 x h1

theorem sortDesc_sorted :
    ∀ l : List (String × ℚ),
      (sortDesc l).Pairwise (fun p q : String × ℚ => q.2 ≤ p.2) := by
  intro l
  induction l with
  | nil => exact List.Pairwise.nil
  | cons a l ih => exact insertDesc_sorted ih

theorem sublist_insertDesc (a : String × ℚ) :
    ∀ t : List (String × ℚ), List.Sublist t (insertDesc a t) := by
  intro t
  induction t with
  | nil => exact List.nil_sublist _
  | cons c t ih =>
    unfold insertDesc
    by_cases h : c.2 ≤ a.2
    · rw [if_pos h]
      exact List.sublist_cons_self a (c :: t)
    · rw [if_neg h]
      exact ih.cons₂ c

theorem pair_sublist_insertDesc {a b : String × ℚ} (hle : b.2 ≤ a.2) :
    ∀ t : List (String × ℚ), b ∈ t → List.Sublist [a, b] (insertDesc a t) := by
  intro t
  induction t with
  | nil => intro h; cases h
  | cons c t ih =>
    intro hb
    unfold insertDesc
    by_cases h : c.2 ≤ a.2
    · rw [if_pos h]
      exact (List.singleton_sublist.mpr hb).cons₂ a
    · rw [if_neg h]
      have hbc : b ≠ c := by
        intro hbc
        exact h (le_trans (hbc ▸ hle) (le_refl a.2))
      rcases List.mem_cons.mp hb with h1 | h1
      · exact absurd h1 hbc
      · exact (ih h1).cons c

theorem sortDesc_stable {a b : String × ℚ} (hle : b.2 ≤ a.2) :
    ∀ l : List (String × ℚ), List.Sublist [a, b] l →
      List.Sublist [a, b] (sortDesc l) := by
  intro l
  induction l with
  | nil => intro h; cases h
  | cons c l ih =>
    intro hsub
    cases hsub with
    | cons _ h =>
      exact (ih h).trans (sublist_insertDesc c (sortDesc l))
    | cons₂ _ h =>
      have hb : b ∈ sortDesc l :=
        mem_sortDesc.mpr (List.singleton_sublist.mp h)
      exact pair_sublist_insertDesc hle (sortDesc l) hb

/-- C8: every query-surface call (`search`, `get_endpoint`,
`get_api_endpoints`, `list_apis`, `list_sections`) leaves the whole
index state unchanged, for every state and every argument — including
unknown tokens, API names and sections. -/
theorem c8_query_surface_readonly :
    ∀ (s : SearchIndex) (query api_name path method : String)
      (af mf sec : Option String) (limit : Int),
      (searchSt s query af mf limit).2 = s ∧
      (getEndpointSt s api_name path method).2 = s ∧
      (getApiEndpointsSt s api_name sec).2 = s ∧
      (listApisSt s).2 = s ∧
      (listSectionsSt s api_name).2 = s := by
  intro s query api_name path method af mf sec limit
  exact ⟨rfl, rfl, getApiEndpointsSt_frame s api_name sec, rfl,
    listSectionsSt_frame s api_name⟩

/-! ## C10: slice semantics of the `limit` argument -/

theorem mapM_lookup_ok (E : List (String × Endpoint)) :
    ∀ l : List (String × ℚ), (∀ kv ∈ l, (alookup E kv.1).isSome) →
    (l.mapM (fun kv =>
        match alookup E kv.1 with
        | some e => Except.ok e
        | none => Except.error ()) :
      Except Unit (List Endpoint)) =
      Except.ok (l.filterMap (fun kv => alookup E kv.1)) := by
  intro l
  induction l with
  | nil => intro _; rfl
  | cons kv l ih =>
    intro h
    have h1 := h kv (List.mem_cons_self kv l)
    cases he : alookup E kv.1 with
    | none => rw [he] at h1; simp at h1
    | some e =>
      have ih2 := ih (fun x hx => h x (List.mem_cons_of_mem _ hx))
      simp only [List.mapM_cons, he, ih2, List.filterMap_cons]
      rfl

theorem filterMap_take_comm {α β : Type} (f : α → Option β) :
    ∀ (l : List α) (n : Nat), (∀ x ∈ l, (f x).isSome) →
      (l.take n).filterMap f = (l.filterMap f).take n := by
  intro l
  induction l with
  | nil => simp
  | cons x l ih =>
    intro n h
    cases n with
    | zero => simp
    | succ n =>
      have hx := h x (List.mem_cons_self x l)
      cases hf : f x with
      | none => rw [hf] at hx; simp at hx
      | some b =>
        simp [List.filterMap_cons, hf,
          ih n (fun y hy => h y (List.mem_cons_of_mem _ hy))]

theorem length_filterMap_all {α β : Type} (f : α → Option β) :
    ∀ l : List α, (∀ x ∈ l, (f x).isSome) →
      (l.filterMap f).length = l.length := by
  intro l
  induction l with
  | nil => simp
  | cons x l ih =>
    intro h
    have hx := h x (List.mem_cons_self x l)
    cases hf : f x with
    | none => rw [hf] at hx; simp at hx
    | some b =>
      simp [List.filterMap_cons, hf,
        ih (fun y hy => h y (List.mem_cons_of_mem _ hy))]

theorem search_eq_of_scores (s : SearchIndex) (q : String)
    (af mf : Option String) (lim : Int) (m : List (String × ℚ))
    (he : (tokenize q).isEmpty = false)
    (h : computeScores s af mf (tokenize q) = .ok m) :
    search s q af mf lim =
      (rankKeys m lim).mapM (fun kv =>
        match alookup s.endpoints kv.1 with
        | some e => Except.ok e
        | none => Except.error ()) := by
  unfold search
  simp only [he, Bool.false_eq_true, if_false, h]
  rfl

/-- C10: with `limit = 0`, `search` returns the empty list; with the
number of scored endpoints as limit it returns the full ranked list;
with a negative limit it does not raise and returns the full ranked
list with its last `|limit|` entries removed (Python slice semantics
`ranked[:limit]`). -/
theorem c10_limit_slice_semantics (s : SearchIndex) (q : String)
    (af mf : Option String) (m : List (String × ℚ))
    (h : computeScores s af mf (tokenize q) = .ok m)
    (hkeys : ∀ kv ∈ m, (alookup s.endpoints kv.1).isSome) :
    search s q af mf 0 = .ok [] ∧
    search s q af mf (m.length : Int) =
      .ok ((sortDesc m).filterMap (fun kv => alookup s.endpoints kv.1)) ∧
    ∀ k : Nat, 0 < k → search s q af mf (-(k : Int)) =
      .ok (((sortDesc m).filterMap (fun kv => alookup s.endpoints kv.1)).take
            (((sortDesc m).filterMap (fun kv => alookup s.endpoints kv.1)).length - k)) := by
  have hkeysR : ∀ kv ∈ sortDesc m, (alookup s.endpoints kv.1).isSome :=
    fun kv hkv => hkeys kv (mem_sortDesc.mp hkv)
  by_cases he : (tokenize q).isEmpty
  · have hm : m = [] := by
      have h0 : computeScores s af mf (tokenize q) = .ok [] := by
        rcases List.isEmpty_iff.mp he with h2
        rw [h2]; rfl
      rw [h0] at h
      cases h
      rfl
    subst hm
    refine ⟨?_, ?_, fun k _ => ?_⟩ <;> simp [search, he, sortDesc]
  · have he' : (tokenize q).isEmpty = false := by
      revert he; cases (tokenize q).isEmpty <;> simp
    have hlen : (sortDesc m).length = m.length := length_sortDesc m
    have hfulllen :
        ((sortDesc m).filterMap (fun kv => alookup s.endpoints kv.1)).length
          = m.length := by
      rw [length_filterMap_all _ _ hkeysR, hlen]
    refine ⟨?_, ?_, ?_⟩
    · rw [search_eq_of_scores s q af mf 0 m he' h]
      have h0 : rankKeys m 0 = [] := by simp [rankKeys, pySlice]
      rw [h0]; rfl
    · rw [search_eq_of_scores s q af mf (m.length : Int) m he' h]
      have h0 : rankKeys m (m.length : Int) = sortDesc m := by
        simp [rankKeys, pySlice, hlen]
      rw [h0, mapM_lookup_ok _ _ hkeysR]
    · intro k hk
      rw [search_eq_of_scores s q af mf (-(k : Int)) m he' h]
      have hneg : ¬ (0 ≤ (-(k : Int))) := by omega
      have h0 : rankKeys m (-(k : Int)) =
          (sortDesc m).take ((sortDesc m).length - k) := by
        simp only [rankKeys, pySlice, if_neg hneg]
        congr 1
        omega
      rw [h0]
      have hsub : ∀ kv ∈ (sortDesc m).take ((sortDesc m).length - k),
          (alookup s.endpoints kv.1).isSome :=
        fun kv hkv => hkeysR kv (List.take_subset _ _ hkv)
      rw [mapM_lookup_ok _ _ hsub, filterMap_take_comm _ _ _ hkeysR, hfulllen, hlen]
end KeboolaDocs

namespace KeboolaDocs

/-! ## C4: the scoring formula of `search` -/

theorem tokChar_toLower {c : Char} (h : isTokChar c = true) : c.toLower = c := by
  unfold isTokChar at h
  simp only [Bool.or_eq_true, Bool.and_eq_true, decide_eq_true_eq] at h
  unfold Char.toLower
  rw [if_neg]
  rintro ⟨h1, h2⟩
  rcases h with ⟨ha, hb⟩ | ⟨ha, hb⟩
  · have ha' : (97 : Nat) ≤ c.toNat := ha
    omega
  · have hb' : c.toNat ≤ (57 : Nat) := hb
    omega

theorem tokenRunsAux_chars :
    ∀ (cs acc : Chars), (∀ c ∈ acc, isTokChar c = true) →
      ∀ r ∈ tokenRunsAux cs acc, ∀ c ∈ r, isTokChar c = true := by
  intro cs
  induction cs with
  | nil =>
    intro acc hacc r hr c hc
    unfold tokenRunsAux at hr
    by_cases he : acc.isEmpty
    · rw [if_pos he] at hr; cases hr
    · rw [if_neg he] at hr
      have h1 : r = acc.reverse := List.mem_singleton.mp hr
      exact hacc c (List.mem_reverse.mp (h1 ▸ hc))
  | cons d cs ih =>
    intro acc hacc r hr c hc
    unfold tokenRunsAux at hr
    by_cases hd : isTokChar d
    · rw [if_pos hd] at hr
      refine ih (d :: acc) ?_ r hr c hc
      intro x hx
      rcases List.mem_cons.mp hx with h1 | h1
      · rw [h1]; exact hd
      · exact hacc x h1
    · rw [if_neg hd] at hr
      by_cases he : acc.isEmpty
      · rw [if_pos he] at hr
        exact ih [] (by intro x hx; cases hx) r hr c hc
      · rw [if_neg he] at hr
        rcases List.mem_cons.mp hr with h1 | h1
        · exact hacc c (List.mem_reverse.mp (h1 ▸ hc))
        · exact ih [] (by intro x hx; cases hx) r h1 c hc

theorem tokenRuns_chars :
    ∀ cs : Chars, ∀ r ∈ tokenRuns cs, ∀ c ∈ r, isTokChar c = true := by
  intro cs r hr c hc
  exact tokenRunsAux_chars cs [] (by intro x hx; cases hx) r hr c hc

theorem lowerC_eq_self {l : Chars} (h : ∀ c ∈ l, c.toLower = c) : lowerC l = l := by
  induction l with
  | nil => rfl
  | cons c l ih =>
    simp only [lowerC, List.map_cons] at ih ⊢
    rw [h c (List.mem_cons_self c l), ih (fun d hd => h d (List.mem_cons_of_mem _ hd))]

/-- Query tokens are already lowercase: lowering one is the identity. -/
theorem tokenize_lower (q : String) : ∀ w ∈ tokenize q, lowerS w = w := by
  intro w hw
  unfold tokenize at hw
  rcases List.mem_filter.mp hw with ⟨hmem, _⟩
  rcases List.mem_map.mp hmem with ⟨r, hr, hwr⟩
  subst hwr
  show (⟨lowerC r⟩ : String) = ⟨r⟩
  rw [lowerC_eq_self (fun c hc => tokChar_toLower (tokenRuns_chars _ r hr c hc))]

theorem alookup_append_single {α : Type} (m : List (String × α)) (k : String)
    (v : α) (key : String) :
    alookup (m ++ [(k, v)]) key =
      match alookup m key with
      | some w => some w
      | none => if k = key then some v else none := by
  induction m with
  | nil => simp [alookup]
  | cons kv m ih =>
    obtain ⟨k', w⟩ := kv
    by_cases h : k' = key
    · simp [alookup, h]
    · simp [alookup, h, ih]

theorem bump_getD (acc : List (String × ℚ)) (k : String) (v : ℚ) (key : String) :
    (alookup (bump acc k v) key).getD 0 =
      (alookup acc key).getD 0 + (if key = k then v else 0) := by
  unfold bump
  cases hm : alookup acc k with
  | some q =>
    rw [alookup_dictSet]
    by_cases h : key = k
    · subst h; simp [hm]
    · simp [h]
  | none =>
    rw [alookup_append_single]
    by_cases h : key = k
    · subst h; simp [hm]
    · have h' : ¬ k = key := fun hh => h hh.symm
      cases alookup acc key <;> simp [h, h']

theorem mem_dictSet {α : Type} {m : List (String × α)} {k : String} {v : α}
    {kv : String × α} (h : kv ∈ dictSet m k v) : kv.1 = k ∨ kv ∈ m := by
  induction m with
  | nil =>
    have h1 : kv = (k, v) := List.mem_singleton.mp h
    exact Or.inl (by rw [h1])
  | cons kv' m ih =>
    obtain ⟨k', w⟩ := kv'
    by_cases h1 : k' = k
    · have h2 : dictSet ((k', w) :: m) k v = (k', v) :: m := by
        simp [dictSet, h1]
      rw [h2] at h
      rcases List.mem_cons.mp h with h3 | h3
      · exact Or.inl (by rw [h3, h1])
      · exact Or.inr (List.mem_cons_of_mem _ h3)
    · have h2 : dictSet ((k', w) :: m) k v = (k', w) :: dictSet m k v := by
        simp [dictSet, h1]
      rw [h2] at h
      rcases List.mem_cons.mp h with h3 | h3
      · exact Or.inr (by rw [h3]; exact List.mem_cons_self _ _)
      · rcases ih h3 with h4 | h4
        · exact Or.inl h4
        · exact Or.inr (List.mem_cons_of_mem _ h4)

theorem mem_bump {acc : List (String × ℚ)} {k : String} {v : ℚ}
    {kv : String × ℚ} (h : kv ∈ bump acc k v) : kv.1 = k ∨ kv ∈ acc := by
  unfold bump at h
  cases hm : alookup acc k with
  | some q => rw [hm] at h; exact mem_dictSet h
  | none =>
    rw [hm] at h
    rcases List.mem_append.mp h with h1 | h1
    · exact Or.inr h1
    · simp only [List.mem_singleton] at h1
      subst h1; exact Or.inl rfl

/-- Score contributed to `key` by one query token, as the code computes
it: zero for filtered-out or unreached endpoints. -/
def tokScore (s : SearchIndex) (af mf : Option String) (t key : String) : ℚ :=
  match alookup s.endpoints key with
  | some e => if apiSkip af e || methodSkip mf e then 0 else contrib t e
  | none => 0

theorem scoreToken_fold (s : SearchIndex) (af mf : Option String) (t : String) :
    ∀ (post : List String) (acc : List (String × ℚ)),
      post.Nodup → (∀ k ∈ post, (alookup s.endpoints k).isSome) →
      ∃ acc', post.foldlM (scoreKey s af mf t) acc = .ok acc' ∧
        (∀ key, (alookup acc' key).getD 0 =
          (alookup acc key).getD 0 +
            (if key ∈ post then tokScore s af mf t key else 0)) ∧
        (∀ kv ∈ acc', kv.1 ∈ post ∨ kv ∈ acc) := by
  intro post
  induction post with
  | nil =>
    intro acc _ _
    exact ⟨acc, rfl, by simp, fun kv hkv => Or.inr hkv⟩
  | cons k' post ih =>
    intro acc hnd hpres
    have hk' := hpres k' (List.mem_cons_self k' post)
    cases he : alookup s.endpoints k' with
    | none => rw [he] at hk'; simp at hk'
    | some e =>
      have hnd' := List.nodup_cons.mp hnd
      have step : scoreKey s af mf t acc k' =
          .ok (if apiSkip af e || methodSkip mf e then acc
               else bump acc k' (contrib t e)) := by
        unfold scoreKey
        rw [he]
        by_cases hs : apiSkip af e || methodSkip mf e <;> simp [hs]
      have hacc1 : ∀ key, (alookup (if apiSkip af e || methodSkip mf e then acc
              else bump acc k' (contrib t e)) key).getD 0 =
            (alookup acc key).getD 0 +
              (if key = k' then tokScore s af mf t k' else 0) := by
        intro key
        unfold tokScore
        rw [he]
        by_cases hs : apiSkip af e || methodSkip mf e
        · simp [hs]
        · simp only [hs, if_false, Bool.false_eq_true]
          rw [bump_getD]
      obtain ⟨acc', hfold, hscore, hdom⟩ :=
        ih (if apiSkip af e || methodSkip mf e then acc
            else bump acc k' (contrib t e)) hnd'.2
          (fun k hk => hpres k (List.mem_cons_of_mem _ hk))
      refine ⟨acc', ?_, ?_, ?_⟩
      · show (scoreKey s af mf t acc k' >>= fun acc₁ =>
            post.foldlM (scoreKey s af mf t) acc₁) = .ok acc'
        rw [step]
        exact hfold
      · intro key
        rw [hscore key, hacc1 key]
        by_cases h1 : key = k'
        · rw [if_pos h1, h1, if_neg hnd'.1, if_pos (List.mem_cons_self k' post)]
          ring
        · by_cases h3 : key ∈ post
          · rw [if_neg h1, if_pos h3, if_pos (List.mem_cons_of_mem _ h3)]
            ring
          · have h4 : key ∉ k' :: post := by simp [List.mem_cons, h1, h3]
            rw [if_neg h1, if_neg h3, if_neg h4]
            ring
      · intro kv hkv
        rcases hdom kv hkv with h1 | h1
        · exact Or.inl (List.mem_cons_of_mem _ h1)
        · by_cases hs : apiSkip af e || methodSkip mf e
          · rw [if_pos hs] at h1; exact Or.inr h1
          · rw [if_neg hs] at h1
            rcases mem_bump h1 with h2 | h2
            · exact Or.inl (h2 ▸ List.mem_cons_self k' post)
            · exact Or.inr h2

end KeboolaDocs

namespace KeboolaDocs

theorem computeScores_fold (s : SearchIndex) (af mf : Option String)
    (hnod : ∀ t, (postingOf s t).Nodup)
    (hpres : ∀ t, ∀ k ∈ postingOf s t, (alookup s.endpoints k).isSome) :
    ∀ (toks : List String) (acc : List (String × ℚ)),
      ∃ m, toks.foldlM (scoreToken s af mf) acc = .ok m ∧
        (∀ key, (alookup m key).getD 0 =
          (alookup acc key).getD 0 +
            (toks.map (fun t =>
              if key ∈ postingOf s t then tokScore s af mf t key else 0)).sum) ∧
        (∀ kv ∈ m, (∃ t ∈ toks, kv.1 ∈ postingOf s t) ∨ kv ∈ acc) := by
  intro toks
  induction toks with
  | nil =>
    intro acc
    exact ⟨acc, rfl, by simp, fun kv hkv => Or.inr hkv⟩
  | cons t toks ih =>
    intro acc
    obtain ⟨acc₁, hstep, hsc1, hdom1⟩ :=
      scoreToken_fold s af mf t (postingOf s t) acc (hnod t) (hpres t)
    obtain ⟨m, hfold, hsc2, hdom2⟩ := ih acc₁
    refine ⟨m, ?_, ?_, ?_⟩
    · show (scoreToken s af mf acc t >>= fun acc₁ =>
          toks.foldlM (scoreToken s af mf) acc₁) = .ok m
      unfold scoreToken
      rw [hstep]
      exact hfold
    · intro key
      rw [hsc2 key, hsc1 key, List.map_cons, List.sum_cons]
      ring
    · intro kv hkv
      rcases hdom2 kv hkv with h1 | h1
      · obtain ⟨t', ht', hk⟩ := h1
        exact Or.inl ⟨t', List.mem_cons_of_mem _ ht', hk⟩
      · rcases hdom1 kv h1 with h2 | h2
        · exact Or.inl ⟨t, List.mem_cons_self t toks, h2⟩
        · exact Or.inr h2

/-! Spec-side wording of the scoring rules (§4.4 of the specification). -/

/-- Case-insensitive substring test, as the spec words it. -/
def ciSub (a b : String) : Bool := containsS (lowerS a) (lowerS b)

/-- Spec wording: skip when `api_filter` is set and is not a
case-insensitive substring of the endpoint's API name. -/
def specApiSkip (af : Option String) (e : Endpoint) : Bool :=
  match optTruthy af with
  | some f => ! ciSub f e.api_name
  | none => false

/-- Spec wording: skip when `method_filter` is set and does not
case-insensitively equal the endpoint's method. -/
def specMethodSkip (mf : Option String) (e : Endpoint) : Bool :=
  match optTruthy mf with
  | some f => ! (upperS e.method = upperS f)
  | none => false

/-- Spec wording: base `1.0`, `+2.0` path hit, `+1.5` summary hit,
`+1.0` section hit. -/
def specContrib (t : String) (e : Endpoint) : ℚ :=
  1 + (if ciSub t e.path then 2 else 0)
    + (if ciSub t e.summary then 3 / 2 else 0)
    + (if ciSub t e.sectionName then 1 else 0)

theorem tokScore_spec (s : SearchIndex) (af mf : Option String)
    (t key : String) (hlow : lowerS t = t) :
    tokScore s af mf t key =
      match alookup s.endpoints key with
      | some e =>
        if specApiSkip af e || specMethodSkip mf e then 0 else specContrib t e
      | none => 0 := by
  unfold tokScore
  cases alookup s.endpoints key with
  | none => rfl
  | some e =>
    have hskip : (apiSkip af e || methodSkip mf e)
        = (specApiSkip af e || specMethodSkip mf e) := by
      unfold apiSkip methodSkip specApiSkip specMethodSkip ciSub
      cases optTruthy af <;> cases optTruthy mf <;> simp [decide_not]
    have hcontrib : contrib t e = specContrib t e := by
      unfold contrib specContrib ciSub
      rw [hlow]
    simp only
    rw [hskip, hcontrib]

/-- C4: for every index whose posting sets are well-formed, `search`'s
scoring pass succeeds and assigns every endpoint key the sum, over the
query tokens whose posting sets reach it, of: nothing when a set
`api_filter` is not a case-insensitive substring of the API name or a
set `method_filter` differs case-insensitively from the method;
otherwise base `1.0`, plus `2.0`/`1.5`/`1.0` for a case-insensitive
substring hit on path/summary/section. -/
theorem c4_scoring_formula (s : SearchIndex) (af mf : Option String)
    (q : String)
    (hnod : ∀ t, (postingOf s t).Nodup)
    (hpres : ∀ t, ∀ k ∈ postingOf s t, (alookup s.endpoints k).isSome) :
    ∃ m, computeScores s af mf (tokenize q) = .ok m ∧
      ∀ key, (alookup m key).getD 0 =
        ((tokenize q).map (fun t =>
          if key ∈ postingOf s t then
            match alookup s.endpoints key with
            | some e =>
              if specApiSkip af e || specMethodSkip mf e then 0
              else specContrib t e
            | none => 0
          else 0)).sum := by
  obtain ⟨m, hfold, hsc, _⟩ :=
    computeScores_fold s af mf hnod hpres (tokenize q) []
  refine ⟨m, hfold, fun key => ?_⟩
  rw [hsc key]
  have hmap : ((tokenize q).map (fun t =>
      if key ∈ postingOf s t then tokScore s af mf t key else 0)) =
      ((tokenize q).map (fun t =>
        if key ∈ postingOf s t then
          match alookup s.endpoints key with
          | some e =>
            if specApiSkip af e || specMethodSkip mf e then 0
            else specContrib t e
          | none => 0
        else 0)) := by
    apply List.map_congr_left
    intro t ht
    rw [tokScore_spec s af mf t key (tokenize_lower q t ht)]
  rw [hmap]
  simp [alookup]

end KeboolaDocs

namespace KeboolaDocs

/-! ## C9: posting and section keys always resolve in `endpoints` -/

theorem mem_pySetAdd {l : List String} {k x : String} :
    x ∈ pySetAdd l k ↔ x ∈ l ∨ x = k := by
  unfold pySetAdd
  by_cases h : k ∈ l
  · simp only [if_pos h]
    constructor
    · exact Or.inl
    · rintro (h1 | h1)
      · exact h1
      · rw [h1]; exact h
  · simp [if_neg h, List.mem_append]

theorem pySetAdd_nodup {l : List String} {k : String} (h : l.Nodup) :
    (pySetAdd l k).Nodup := by
  unfold pySetAdd
  by_cases hk : k ∈ l
  · simp [hk, h]
  · simp [hk, h, List.nodup_append, List.disjoint_singleton]

theorem postingM_ddAdd (m : List (String × List String)) (t k tok : String) :
    (alookup (ddAdd m t k) tok).getD [] =
      if tok = t then pySetAdd ((alookup m t).getD []) k
      else (alookup m tok).getD [] := by
  unfold ddAdd
  cases hm : alookup m t with
  | some l =>
    rw [alookup_dictSet]
    by_cases h : tok = t
    · simp [h, hm]
    · simp [h]
  | none =>
    rw [alookup_append_single]
    by_cases h : tok = t
    · subst h
      simp [hm, pySetAdd]
    · have h' : ¬ t = tok := fun hh => h hh.symm
      cases alookup m tok <;> simp [h, h']

/-- Iterated `ddAdd` step function used by `add_endpoint`. -/
def ddAddK (k : String) (m : List (String × List String)) (t : String) :
    List (String × List String) := ddAdd m t k

theorem fold_ddAdd_subset (k : String) :
    ∀ (toks : List String) (m : List (String × List String)) (tok x : String),
      x ∈ (alookup (toks.foldl (ddAddK k) m) tok).getD [] →
      x ∈ (alookup m tok).getD [] ∨ x = k := by
  intro toks
  induction toks with
  | nil => intro m tok x hx; exact Or.inl hx
  | cons t toks ih =>
    intro m tok x hx
    rcases ih (ddAdd m t k) tok x hx with h1 | h1
    · rw [postingM_ddAdd] at h1
      by_cases h : tok = t
      · rw [if_pos h] at h1
        rcases mem_pySetAdd.mp h1 with h2 | h2
        · rw [h]; exact Or.inl h2
        · exact Or.inr h2
      · rw [if_neg h] at h1; exact Or.inl h1
    · exact Or.inr h1

theorem fold_ddAdd_nodup (k : String) :
    ∀ (toks : List String) (m : List (String × List String)) (tok : String),
      (∀ u, ((alookup m u).getD []).Nodup) →
      ((alookup (toks.foldl (ddAddK k) m) tok).getD []).Nodup := by
  intro toks
  induction toks with
  | nil => intro m tok h; exact h tok
  | cons t toks ih =>
    intro m tok h
    apply ih (ddAdd m t k) tok
    intro u
    rw [postingM_ddAdd]
    by_cases hu : u = t
    · rw [if_pos hu]; exact pySetAdd_nodup (h t)
    · rw [if_neg hu]; exact h u

theorem fold_ddAdd_keeps (k : String) :
    ∀ (toks : List String) (m : List (String × List String)) (tok : String),
      k ∈ (alookup m tok).getD [] →
      k ∈ (alookup (toks.foldl (ddAddK k) m) tok).getD [] := by
  intro toks
  induction toks with
  | nil => intro m tok h; exact h
  | cons t toks ih =>
    intro m tok h
    rw [List.foldl_cons]
    apply ih (ddAddK k m t) tok
    show k ∈ (alookup (ddAdd m t k) tok).getD []
    rw [postingM_ddAdd]
    by_cases hu : tok = t
    · rw [if_pos hu]
      rw [hu] at h
      exact mem_pySetAdd.mpr (Or.inl h)
    · rw [if_neg hu]; exact h

theorem fold_ddAdd_mem (k : String) :
    ∀ (toks : List String) (m : List (String × List String)) (tok : String),
      tok ∈ toks → k ∈ (alookup (toks.foldl (ddAddK k) m) tok).getD [] := by
  intro toks
  induction toks with
  | nil => intro m tok h; cases h
  | cons t toks ih =>
    intro m tok h
    rcases List.mem_cons.mp h with h1 | h1
    · rw [List.foldl_cons]
      apply fold_ddAdd_keeps k toks (ddAddK k m t) tok
      show k ∈ (alookup (ddAdd m t k) tok).getD []
      rw [postingM_ddAdd, if_pos h1]
      exact mem_pySetAdd.mpr (Or.inr rfl)
    · exact ih (ddAdd m t k) tok h1

/-- Keys stored in `api_sections[api][sec]`. -/
def sectionKeys (s : SearchIndex) (api sec : String) : List String :=
  (alookup ((alookup s.api_sections api).getD []) sec).getD []

/-- Well-formedness of the inverted index: duplicate-free posting sets
whose keys all resolve in the `endpoints` map. -/
def PostingsOK (s : SearchIndex) : Prop :=
  ∀ t : String, (postingOf s t).Nodup ∧
    ∀ k ∈ postingOf s t, (alookup s.endpoints k).isSome

/-- Well-formedness of `api_sections`: every stored key resolves. -/
def SectionsOK (s : SearchIndex) : Prop :=
  ∀ api sec : String, ∀ k ∈ sectionKeys s api sec,
    (alookup s.endpoints k).isSome

theorem endpoints_addEndpoint_isSome {s : SearchIndex} {e : Endpoint}
    {k : String} (h : (alookup s.endpoints k).isSome) :
    (alookup (addEndpoint s e).endpoints k).isSome := by
  show (alookup (dictSet s.endpoints e.key e) k).isSome
  rw [alookup_dictSet]
  by_cases hk : k = e.key
  · simp [hk]
  · simp [hk, h]

theorem postingsOK_empty : PostingsOK emptyIndex := by
  intro t
  constructor
  · show ((alookup [] t).getD []).Nodup
    simp [alookup]
  · intro k hk
    simp [postingOf, alookup] at hk

theorem sectionsOK_empty : SectionsOK emptyIndex := by
  intro api sec k hk
  simp [sectionKeys, alookup] at hk

theorem postingsOK_addEndpoint {s : SearchIndex} (e : Endpoint)
    (h : PostingsOK s) : PostingsOK (addEndpoint s e) := by
  intro tok
  have hinv : (addEndpoint s e).inverted_index =
      (tokenize e.searchable_text).foldl (ddAddK e.key) s.inverted_index := rfl
  constructor
  · show (postingOf (addEndpoint s e) tok).Nodup
    unfold postingOf
    rw [hinv]
    exact fold_ddAdd_nodup e.key _ s.inverted_index tok (fun u => (h u).1)
  · intro k hk
    unfold postingOf at hk
    rw [hinv] at hk
    rcases fold_ddAdd_subset e.key _ s.inverted_index tok k hk with h1 | h1
    · exact endpoints_addEndpoint_isSome ((h tok).2 k h1)
    · show (alookup (dictSet s.endpoints e.key e) k).isSome
      rw [alookup_dictSet, if_pos h1]
      rfl

theorem sectionsOK_addEndpoint {s : SearchIndex} (e : Endpoint)
    (h : SectionsOK s) : SectionsOK (addEndpoint s e) := by
  intro api sec k hk
  have hsec : (addEndpoint s e).api_sections =
      addSection s.api_sections e.api_name e.sectionName e.key := rfl
  unfold sectionKeys at hk
  rw [hsec] at hk
  unfold addSection at hk
  rw [alookup_dictSet] at hk
  by_cases h1 : api = e.api_name
  · rw [if_pos h1] at hk
    simp only [Option.getD_some] at hk
    rw [alookup_dictSet] at hk
    by_cases h2 : sec = e.sectionName
    · rw [if_pos h2] at hk
      simp only [Option.getD_some] at hk
      rcases List.mem_append.mp hk with h3 | h3
      · exact endpoints_addEndpoint_isSome (h e.api_name e.sectionName k h3)
      · have h4 : k = e.key := List.mem_singleton.mp h3
        show (alookup (dictSet s.endpoints e.key e) k).isSome
        rw [alookup_dictSet, if_pos h4]
        rfl
    · rw [if_neg h2] at hk
      exact endpoints_addEndpoint_isSome (h e.api_name sec k hk)
  · rw [if_neg h1] at hk
    exact endpoints_addEndpoint_isSome (h api sec k hk)

/-- Index states producible by the public constructor and
`add_endpoint` calls. -/
inductive Reachable : SearchIndex → Prop where
  | base : Reachable emptyIndex
  | step {s : SearchIndex} (e : Endpoint) : Reachable s → Reachable (addEndpoint s e)

theorem reachable_ok {s : SearchIndex} (h : Reachable s) :
    PostingsOK s ∧ SectionsOK s := by
  induction h with
  | base => exact ⟨postingsOK_empty, sectionsOK_empty⟩
  | step e _ ih => exact ⟨postingsOK_addEndpoint e ih.1, sectionsOK_addEndpoint e ih.2⟩

theorem search_isOk {s : SearchIndex} (hP : PostingsOK s)
    (q : String) (af mf : Option String) (lim : Int) :
    (search s q af mf lim).isOk := by
  by_cases he : (tokenize q).isEmpty
  · simp [search, he, Except.isOk, Except.toBool]
  · have he' : (tokenize q).isEmpty = false := by
      revert he; cases (tokenize q).isEmpty <;> simp
    obtain ⟨m, hfold, _, hdom⟩ :=
      computeScores_fold s af mf (fun t => (hP t).1) (fun t => (hP t).2)
        (tokenize q) []
    rw [search_eq_of_scores s q af mf lim m he' hfold]
    have hkeys : ∀ kv ∈ rankKeys m lim, (alookup s.endpoints kv.1).isSome := by
      intro kv hkv
      have hmem : kv ∈ m := by
        unfold rankKeys pySlice at hkv
        by_cases h0 : 0 ≤ lim
        · rw [if_pos h0] at hkv
          exact mem_sortDesc.mp (List.take_subset _ _ hkv)
        · rw [if_neg h0] at hkv
          exact mem_sortDesc.mp (List.take_subset _ _ hkv)
      rcases hdom kv hmem with h1 | h1
      · obtain ⟨t, _, hk⟩ := h1
        exact (hP t).2 kv.1 hk
      · cases h1
    rw [mapM_lookup_ok _ _ hkeys]
    rfl

/-- C9: on every reachable index state, every key in any posting set and
every key in any `api_sections` list resolves in the `endpoints` map,
and consequently the direct `self.endpoints[key]` lookups of `search`
never raise (`get_api_endpoints` guards its lookups and is total by
construction). -/
theorem c9_posting_keys_resolve (s : SearchIndex) (h : Reachable s) :
    (∀ t : String, ∀ k ∈ postingOf s t, (alookup s.endpoints k).isSome) ∧
    (∀ api sec : String, ∀ k ∈ sectionKeys s api sec,
      (alookup s.endpoints k).isSome) ∧
    (∀ (q : String) (af mf : Option String) (lim : Int),
      (search s q af mf lim).isOk) := by
  obtain ⟨hP, hS⟩ := reachable_ok h
  exact ⟨fun t => (hP t).2, hS, fun q af mf lim => search_isOk hP q af mf lim⟩

end KeboolaDocs

namespace KeboolaDocs

/-! ## C3: last-write-wins overwrite, additive postings, call-counting -/

theorem length_dictSet_of_isSome {α : Type} {m : List (String × α)}
    {k : String} (v : α) (h : (alookup m k).isSome) :
    (dictSet m k v).length = m.length := by
  induction m with
  | nil => simp [alookup] at h
  | cons kv m ih =>
    obtain ⟨k', w⟩ := kv
    by_cases h1 : k' = k
    · simp [dictSet, h1]
    · have h2 : (alookup m k).isSome := by
        simpa [alookup, h1] using h
      simp [dictSet, h1, ih h2]

theorem addInfo_count (m : List (String × ApiInfo)) (e : Endpoint) :
    ∃ ai', alookup (addInfo m e) e.api_name = some ai' ∧
      ai'.endpoint_count =
        ((alookup m e.api_name).map ApiInfo.endpoint_count).getD 0 + 1 := by
  unfold addInfo
  rw [alookup_dictSet, if_pos rfl]
  cases hm : alookup m e.api_name with
  | some ai => exact ⟨_, rfl, by simp [hm]⟩
  | none => exact ⟨_, rfl, by simp [hm]⟩

theorem ddAdd_lookup_sublist {m : List (String × List String)} {t : String}
    {l : List String} (t' k : String) (h : alookup m t = some l) :
    ∃ l', alookup (ddAdd m t' k) t = some l' ∧ List.Sublist l l' := by
  unfold ddAdd
  cases hm : alookup m t' with
  | some l₂ =>
    rw [alookup_dictSet]
    by_cases h1 : t = t'
    · subst h1
      rw [h] at hm
      cases hm
      refine ⟨pySetAdd l k, by simp, ?_⟩
      unfold pySetAdd
      by_cases h2 : k ∈ l
      · simp [h2]
      · simp [h2]
    · exact ⟨l, by simp [h1, h], List.Sublist.refl l⟩
  | none =>
    rw [alookup_append_single, h]
    exact ⟨l, rfl, List.Sublist.refl l⟩

theorem fold_ddAdd_lookup_sublist (k : String) :
    ∀ (toks : List String) (m : List (String × List String)) (t : String)
      (l : List String), alookup m t = some l →
      ∃ l', alookup (toks.foldl (ddAddK k) m) t = some l' ∧ List.Sublist l l' := by
  intro toks
  induction toks with
  | nil => intro m t l h; exact ⟨l, h, List.Sublist.refl l⟩
  | cons t' toks ih =>
    intro m t l h
    obtain ⟨l₁, h1, hs1⟩ := ddAdd_lookup_sublist t' k h
    obtain ⟨l₂, h2, hs2⟩ := ih (ddAdd m t' k) t l₁ h1
    exact ⟨l₂, h2, hs1.trans hs2⟩

theorem ddAdd_isSome_self (m : List (String × List String)) (t k : String) :
    (alookup (ddAdd m t k) t).isSome := by
  unfold ddAdd
  cases hm : alookup m t with
  | some l => rw [alookup_dictSet, if_pos rfl]; rfl
  | none => rw [alookup_append_single, hm, if_pos rfl]; rfl

theorem ddAdd_isSome_preserved {m : List (String × List String)}
    {tok : String} (t k : String) (h : (alookup m tok).isSome) :
    (alookup (ddAdd m t k) tok).isSome := by
  unfold ddAdd
  cases hm : alookup m t with
  | some l =>
    rw [alookup_dictSet]
    by_cases h1 : tok = t
    · simp [h1]
    · simp [h1, h]
  | none =>
    rw [alookup_append_single]
    cases h2 : alookup m tok with
    | some l => rfl
    | none => rw [h2] at h; simp at h

theorem fold_ddAdd_isSome (k : String) :
    ∀ (toks : List String) (m : List (String × List String)) (tok : String),
      tok ∈ toks ∨ (alookup m tok).isSome →
      (alookup (toks.foldl (ddAddK k) m) tok).isSome := by
  intro toks
  induction toks with
  | nil =>
    intro m tok h
    rcases h with h | h
    · cases h
    · exact h
  | cons t toks ih =>
    intro m tok h
    rw [List.foldl_cons]
    apply ih (ddAddK k m t) tok
    rcases h with h | h
    · rcases List.mem_cons.mp h with h1 | h1
      · exact Or.inr (h1 ▸ ddAdd_isSome_self m t k)
      · exact Or.inl h1
    · exact Or.inr (ddAdd_isSome_preserved t k h)

theorem ddAdd_id {m : List (String × List String)} {t : String}
    {l : List String} (k : String) (h : alookup m t = some l) (hk : k ∈ l) :
    ddAdd m t k = m := by
  unfold ddAdd
  rw [h]
  show dictSet m t (pySetAdd l k) = m
  have h1 : pySetAdd l k = l := by unfold pySetAdd; rw [if_pos hk]
  rw [h1]
  exact dictSet_self h

theorem fold_ddAdd_id (k : String) :
    ∀ (toks : List String) (m : List (String × List String)),
      (∀ t ∈ toks, ∃ l, alookup m t = some l ∧ k ∈ l) →
      toks.foldl (ddAddK k) m = m := by
  intro toks
  induction toks with
  | nil => intro m _; rfl
  | cons t toks ih =>
    intro m h
    obtain ⟨l, hl, hk⟩ := h t (List.mem_cons_self t toks)
    rw [List.foldl_cons]
    have h1 : ddAddK k m t = m := ddAdd_id k hl hk
    rw [h1]
    exact ih m (fun t' ht' => h t' (List.mem_cons_of_mem _ ht'))

theorem addEndpoint_twice_core (s : SearchIndex) (e : Endpoint) :
    (addEndpoint (addEndpoint s e) e).endpoints = (addEndpoint s e).endpoints ∧
    (addEndpoint (addEndpoint s e) e).inverted_index =
      (addEndpoint s e).inverted_index := by
  constructor
  · show dictSet (dictSet s.endpoints e.key e) e.key e = dictSet s.endpoints e.key e
    exact dictSet_self (by rw [alookup_dictSet, if_pos rfl])
  · show (tokenize e.searchable_text).foldl (fun m t => ddAdd m t e.key)
        ((addEndpoint s e).inverted_index) = (addEndpoint s e).inverted_index
    have hfold : (addEndpoint s e).inverted_index =
        (tokenize e.searchable_text).foldl (ddAddK e.key) s.inverted_index := rfl
    apply fold_ddAdd_id e.key
    intro t ht
    have hsome : (alookup ((addEndpoint s e).inverted_index) t).isSome := by
      rw [hfold]
      exact fold_ddAdd_isSome e.key _ s.inverted_index t (Or.inl ht)
    cases hl : alookup ((addEndpoint s e).inverted_index) t with
    | none => rw [hl] at hsome; simp at hsome
    | some l =>
      refine ⟨l, rfl, ?_⟩
      have hmem : e.key ∈ (alookup ((addEndpoint s e).inverted_index) t).getD [] := by
        rw [hfold]
        exact fold_ddAdd_mem e.key _ s.inverted_index t ht
      rw [hl] at hmem
      exact hmem

theorem search_fields_congr (s s' : SearchIndex)
    (hE : s.endpoints = s'.endpoints)
    (hI : s.inverted_index = s'.inverted_index)
    (q : String) (af mf : Option String) (lim : Int) :
    search s q af mf lim = search s' q af mf lim := by
  obtain ⟨E, I, A, S⟩ := s
  obtain ⟨E', I', A', S'⟩ := s'
  simp only at hE hI
  subst hE
  subst hI
  rfl

/-- C3: a colliding `add_endpoint` overwrites the stored endpoint
(last-write-wins, no new `endpoints` entry), always increments the API's
`endpoint_count` (it counts calls), and removes no posting entry; adding
the same Endpoint value twice leaves the `endpoints` map, the inverted
index and hence all `search` results unchanged while `endpoint_count`
still increments. -/
theorem c3_overwrite_lastwritewins (s : SearchIndex) (e : Endpoint)
    (hk : (alookup s.endpoints e.key).isSome) :
    alookup (addEndpoint s e).endpoints e.key = some e ∧
    (addEndpoint s e).endpoints.length = s.endpoints.length ∧
    (∃ ai', alookup (addEndpoint s e).api_info e.api_name = some ai' ∧
      ai'.endpoint_count =
        ((alookup s.api_info e.api_name).map ApiInfo.endpoint_count).getD 0 + 1) ∧
    (∀ t l, alookup s.inverted_index t = some l →
      ∃ l', alookup (addEndpoint s e).inverted_index t = some l' ∧ List.Sublist l l') ∧
    ((addEndpoint (addEndpoint s e) e).endpoints = (addEndpoint s e).endpoints ∧
     (addEndpoint (addEndpoint s e) e).inverted_index =
       (addEndpoint s e).inverted_index ∧
     (∀ (q : String) (af mf : Option String) (lim : Int),
       search (addEndpoint (addEndpoint s e) e) q af mf lim =
         search (addEndpoint s e) q af mf lim) ∧
     (∃ ai₁ ai₂,
       alookup (addEndpoint s e).api_info e.api_name = some ai₁ ∧
       alookup (addEndpoint (addEndpoint s e) e).api_info e.api_name = some ai₂ ∧
       ai₂.endpoint_count = ai₁.endpoint_count + 1)) := by
  obtain ⟨hE2, hI2⟩ := addEndpoint_twice_core s e
  refine ⟨?_, ?_, addInfo_count s.api_info e, ?_, hE2, hI2, ?_, ?_⟩
  · show alookup (dictSet s.endpoints e.key e) e.key = some e
    rw [alookup_dictSet, if_pos rfl]
  · show (dictSet s.endpoints e.key e).length = s.endpoints.length
    exact length_dictSet_of_isSome e hk
  · intro t l hl
    exact fold_ddAdd_lookup_sublist e.key _ s.inverted_index t l hl
  · intro q af mf lim
    exact search_fields_congr _ _ hE2 hI2 q af mf lim
  · obtain ⟨ai₁, h1, _⟩ := addInfo_count s.api_info e
    obtain ⟨ai₂, h2, hc2⟩ := addInfo_count (addEndpoint s e).api_info e
    refine ⟨ai₁, ai₂, h1, h2, ?_⟩
    have : (addEndpoint s e).api_info = addInfo s.api_info e := rfl
    rw [this] at hc2
    rw [h1] at hc2
    simpa using hc2
end KeboolaDocs

namespace KeboolaDocs

/-! ## C2: determinism and ordering of `search` results

The posting sets are CPython `set`s.  Iterating a `set` enumerates a
hash-table layout: the language guarantees membership only, and with
string-hash randomization the layout varies between processes for one
and the same insertion sequence.  `StepIns`/`AddER` capture exactly that
guarantee; both `addEndpoint` (append order) and `addEndpointFlip`
(prepend order) realize the relation, and `search` distinguishes their
results on tied scores. -/

/-- One `self.inverted_index[token].add(key)` observed through set
iteration: any duplicate-free enumeration of `old ∪ {key}`. -/
def StepIns (m mid : List (String × List String)) (t k : String) : Prop :=
  match alookup m t with
  | some l => ∃ l', SetIns l l' k ∧ mid = dictSet m t l'
  | none => ∃ l', SetIns [] l' k ∧ mid = m ++ [(t, l')]

/-- The indexing loop over the token list, relationally. -/
def AddInvR : List String → List (String × List String) →
    List (String × List String) → String → Prop
  | [], m, m', _ => m' = m
  | t :: ts, m, m', k => ∃ mid, StepIns m mid t k ∧ AddInvR ts mid m' k

/-- `add_endpoint` with the honest (order-agnostic) set semantics; every
component other than the posting sets is deterministic dict/list code. -/
def AddER (s : SearchIndex) (e : Endpoint) (s' : SearchIndex) : Prop :=
  s'.endpoints = dictSet s.endpoints e.key e ∧
  AddInvR (tokenize e.searchable_text) s.inverted_index s'.inverted_index e.key ∧
  s'.api_info = addInfo s.api_info e ∧
  s'.api_sections = addSection s.api_sections e.api_name e.sectionName e.key

/-- `set.add` rendered with the new element first: an equally legitimate
iteration order of the resulting hash table. -/
def pySetAddF (l : List String) (k : String) : List String :=
  if k ∈ l then l else k :: l

def ddAddF (m : List (String × List String)) (t k : String) :
    List (String × List String) :=
  match alookup m t with
  | some l => dictSet m t (pySetAddF l k)
  | none => m ++ [(t, [k])]

/-- `add_endpoint` with the prepend rendering of `set.add`. -/
def addEndpointFlip (s : SearchIndex) (e : Endpoint) : SearchIndex :=
  let key := e.key
  { endpoints := dictSet s.endpoints key e
    inverted_index :=
      (tokenize e.searchable_text).foldl (fun m t => ddAddF m t key)
        s.inverted_index
    api_info := addInfo s.api_info e
    api_sections := addSection s.api_sections e.api_name e.sectionName key }

theorem setIns_pySetAdd {l : List String} (k : String) (h : l.Nodup) :
    SetIns l (pySetAdd l k) k :=
  ⟨pySetAdd_nodup h, fun x => mem_pySetAdd⟩

theorem setIns_pySetAddF {l : List String} (k : String) (h : l.Nodup) :
    SetIns l (pySetAddF l k) k := by
  unfold pySetAddF
  by_cases hk : k ∈ l
  · rw [if_pos hk]
    refine ⟨h, fun x => ?_⟩
    constructor
    · exact Or.inl
    · rintro (h1 | h1)
      · exact h1
      · rw [h1]; exact hk
  · rw [if_neg hk]
    refine ⟨List.nodup_cons.mpr ⟨hk, h⟩, fun x => ?_⟩
    rw [List.mem_cons]
    constructor
    · rintro (h1 | h1)
      · exact Or.inr h1
      · exact Or.inl h1
    · rintro (h1 | h1)
      · exact Or.inr h1
      · exact Or.inl h1

theorem nodupM_ddAdd {m : List (String × List String)}
    (hn : ∀ u, ((alookup m u).getD []).Nodup) (t k : String) :
    ∀ u, ((alookup (ddAdd m t k) u).getD []).Nodup := by
  intro u
  rw [postingM_ddAdd]
  by_cases hu : u = t
  · rw [if_pos hu]; exact pySetAdd_nodup (hn t)
  · rw [if_neg hu]; exact hn u

theorem postingM_ddAddF (m : List (String × List String)) (t k tok : String) :
    (alookup (ddAddF m t k) tok).getD [] =
      if tok = t then pySetAddF ((alookup m t).getD []) k
      else (alookup m tok).getD [] := by
  unfold ddAddF
  cases hm : alookup m t with
  | some l =>
    rw [alookup_dictSet]
    by_cases h : tok = t
    · simp [h, hm]
    · simp [h]
  | none =>
    rw [alookup_append_single]
    by_cases h : tok = t
    · subst h
      simp [hm, pySetAddF]
    · have h' : ¬ t = tok := fun hh => h hh.symm
      cases alookup m tok <;> simp [h, h']

theorem nodupM_ddAddF {m : List (String × List String)}
    (hn : ∀ u, ((alookup m u).getD []).Nodup) (t k : String) :
    ∀ u, ((alookup (ddAddF m t k) u).getD []).Nodup := by
  intro u
  rw [postingM_ddAddF]
  by_cases hu : u = t
  · rw [if_pos hu]
    unfold pySetAddF
    by_cases hk : k ∈ (alookup m t).getD []
    · rw [if_pos hk]; exact hn t
    · rw [if_neg hk]; exact List.nodup_cons.mpr ⟨hk, hn t⟩
  · rw [if_neg hu]; exact hn u

theorem stepIns_ddAdd (m : List (String × List String)) (t k : String)
    (hn : ∀ u, ((alookup m u).getD []).Nodup) :
    StepIns m (ddAdd m t k) t k := by
  unfold StepIns ddAdd
  cases hm : alookup m t with
  | some l =>
    refine ⟨pySetAdd l k, ?_, rfl⟩
    have := hn t
    rw [hm] at this
    exact setIns_pySetAdd k this
  | none =>
    refine ⟨[k], ⟨List.nodup_singleton k, fun x => ?_⟩, rfl⟩
    simp

theorem stepIns_ddAddF (m : List (String × List String)) (t k : String)
    (hn : ∀ u, ((alookup m u).getD []).Nodup) :
    StepIns m (ddAddF m t k) t k := by
  unfold StepIns ddAddF
  cases hm : alookup m t with
  | some l =>
    refine ⟨pySetAddF l k, ?_, rfl⟩
    have := hn t
    rw [hm] at this
    exact setIns_pySetAddF k this
  | none =>
    refine ⟨[k], ⟨List.nodup_singleton k, fun x => ?_⟩, rfl⟩
    simp

theorem addInvR_fold (k : String) :
    ∀ (toks : List String) (m : List (String × List String)),
      (∀ u, ((alookup m u).getD []).Nodup) →
      AddInvR toks m (toks.foldl (ddAddK k) m) k := by
  intro toks
  induction toks with
  | nil => intro m _; rfl
  | cons t toks ih =>
    intro m hn
    exact ⟨ddAdd m t k, stepIns_ddAdd m t k hn,
      ih (ddAdd m t k) (nodupM_ddAdd hn t k)⟩

theorem addInvR_foldF (k : String) :
    ∀ (toks : List String) (m : List (String × List String)),
      (∀ u, ((alookup m u).getD []).Nodup) →
      AddInvR toks m (toks.foldl (fun mm t => ddAddF mm t k) m) k := by
  intro toks
  induction toks with
  | nil => intro m _; rfl
  | cons t toks ih =>
    intro m hn
    exact ⟨ddAddF m t k, stepIns_ddAddF m t k hn,
      ih (ddAddF m t k) (nodupM_ddAddF hn t k)⟩

theorem addER_addEndpoint (s : SearchIndex) (e : Endpoint)
    (hn : ∀ t, (postingOf s t).Nodup) :
    AddER s e (addEndpoint s e) :=
  ⟨rfl, addInvR_fold e.key (tokenize e.searchable_text) s.inverted_index hn,
   rfl, rfl⟩

theorem addER_addEndpointFlip (s : SearchIndex) (e : Endpoint)
    (hn : ∀ t, (postingOf s t).Nodup) :
    AddER s e (addEndpointFlip s e) :=
  ⟨rfl, addInvR_foldF e.key (tokenize e.searchable_text) s.inverted_index hn,
   rfl, rfl⟩

end KeboolaDocs

deriving instance DecidableEq for Except

attribute [local semireducible] Rat.add Rat.mul Rat.inv Rat.sub

namespace KeboolaDocs

/-- Two endpoints whose paths share the token `widget` and tie at score
3.0 for the query "widget". -/
def cEpA : Endpoint :=
  { api_name := "Api", sectionName := "Sec", path := "/alpha/widget",
    method := "GET", summary := "one" }

def cEpB : Endpoint :=
  { api_name := "Api", sectionName := "Sec", path := "/beta/widget",
    method := "GET", summary := "two" }

/-- The same two `add_endpoint` calls under the append rendering of
`set.add`. -/
def cIdx1 : SearchIndex := addEndpoint (addEndpoint emptyIndex cEpA) cEpB

/-- The same two `add_endpoint` calls under the prepend rendering. -/
def cIdx2 : SearchIndex := addEndpointFlip (addEndpoint emptyIndex cEpA) cEpB

/-- C2, counterexample: one and the same insertion sequence
(`cEpA` then `cEpB` into an empty index) reaches, under the set
semantics Python guarantees, two states whose `search` results differ
in order — so the encounter order of tied results is *not* determined
by insertion order; it is the hash-dependent posting-set iteration
order.  (Empirically, CPython yields each of the two orders under
different `PYTHONHASHSEED` values for exactly these keys.) -/
theorem c2_counterexample_tie_order_not_insertion :
    AddER emptyIndex cEpA (addEndpoint emptyIndex cEpA) ∧
    AddER (addEndpoint emptyIndex cEpA) cEpB cIdx1 ∧
    AddER (addEndpoint emptyIndex cEpA) cEpB cIdx2 ∧
    search cIdx1 "widget" none none 10 ≠ search cIdx2 "widget" none none 10 := by
  have h0 : ∀ t, (postingOf emptyIndex t).Nodup := fun t => (postingsOK_empty t).1
  have h1 : ∀ t, (postingOf (addEndpoint emptyIndex cEpA) t).Nodup :=
    fun t => (postingsOK_addEndpoint cEpA postingsOK_empty t).1
  exact ⟨addER_addEndpoint emptyIndex cEpA h0,
    addER_addEndpoint (addEndpoint emptyIndex cEpA) cEpB h1,
    addER_addEndpointFlip (addEndpoint emptyIndex cEpA) cEpB h1,
    by decide⟩

theorem scoreLE_trans : ∀ a b c : String × ℚ,
    scoreLE a b → scoreLE b c → scoreLE a c := by
  intro a b c hab hbc
  simp only [scoreLE, decide_eq_true_eq] at *
  exact le_trans hbc hab

theorem scoreLE_total : ∀ a b : String × ℚ, scoreLE a b || scoreLE b a := by
  intro a b
  simp only [scoreLE, Bool.or_eq_true, decide_eq_true_eq]
  exact le_total b.2 a.2

/-- C2, amended: for a fixed index state the ranked list is the stable
descending sort of the first-encounter-ordered score items — sorted by
score, a permutation of the items, with every in-order pair of items
whose scores are already descending (ties included) keeping its order —
truncated by `limit`; the result is a function of the state alone, but
by `c2_counterexample_tie_order_not_insertion` the state's posting
order, hence the tie order, is set-iteration order rather than
insertion order. -/
theorem c2_amended_stable_descending_rank (s : SearchIndex) (q : String)
    (af mf : Option String) (lim : Int) (m : List (String × ℚ))
    (h : computeScores s af mf (tokenize q) = .ok m)
    (hkeys : ∀ kv ∈ m, (alookup s.endpoints kv.1).isSome)
    (he : (tokenize q).isEmpty = false) :
    ((sortDesc m).Pairwise (fun a b : String × ℚ => b.2 ≤ a.2)) ∧
    List.Perm (sortDesc m) m ∧
    (∀ a b : String × ℚ, List.Sublist [a, b] m → b.2 ≤ a.2 →
      List.Sublist [a, b] (sortDesc m)) ∧
    search s q af mf lim =
      .ok ((pySlice (sortDesc m) lim).filterMap
        (fun kv => alookup s.endpoints kv.1)) := by
  refine ⟨sortDesc_sorted m, sortDesc_perm m, ?_, ?_⟩
  · intro a b hsub hle
    exact sortDesc_stable hle m hsub
  · rw [search_eq_of_scores s q af mf lim m he h]
    have hx : ∀ kv ∈ rankKeys m lim, (alookup s.endpoints kv.1).isSome := by
      intro kv hkv
      apply hkeys
      unfold rankKeys pySlice at hkv
      by_cases h0 : 0 ≤ lim
      · rw [if_pos h0] at hkv
        exact mem_sortDesc.mp (List.take_subset _ _ hkv)
      · rw [if_neg h0] at hkv
        exact mem_sortDesc.mp (List.take_subset _ _ hkv)
    rw [mapM_lookup_ok _ _ hx]
    rfl

end KeboolaDocs

namespace KeboolaDocs

/-- Concrete score list `search` computes on `cIdx1` for "widget". -/
def wScores : List (String × ℚ) :=
  [("Api:GET:/alpha/widget", 3), ("Api:GET:/beta/widget", 3)]

/-- Witness for `c10_limit_slice_semantics` at a concrete two-endpoint
index. -/
theorem c10_limit_witness :
    computeScores cIdx1 none none (tokenize "widget") = .ok wScores ∧
    (∀ kv ∈ wScores, (alookup cIdx1.endpoints kv.1).isSome) ∧
    (search cIdx1 "widget" none none 0 = .ok [] ∧
     search cIdx1 "widget" none none (wScores.length : Int) =
       .ok ((sortDesc wScores).filterMap (fun kv => alookup cIdx1.endpoints kv.1)) ∧
     ∀ k : Nat, 0 < k → search cIdx1 "widget" none none (-(k : Int)) =
       .ok (((sortDesc wScores).filterMap
              (fun kv => alookup cIdx1.endpoints kv.1)).take
            (((sortDesc wScores).filterMap
              (fun kv => alookup cIdx1.endpoints kv.1)).length - k))) :=
  ⟨by decide, by decide,
   c10_limit_slice_semantics cIdx1 "widget" none none wScores
     (by decide) (by decide)⟩

/-- Witness for `c4_scoring_formula` at a concrete two-endpoint index
with a method filter. -/
theorem c4_scoring_witness :
    (∀ t, (postingOf cIdx1 t).Nodup) ∧
    (∀ t, ∀ k ∈ postingOf cIdx1 t, (alookup cIdx1.endpoints k).isSome) ∧
    (∃ m, computeScores cIdx1 none (some "get") (tokenize "widget") = .ok m ∧
      ∀ key, (alookup m key).getD 0 =
        ((tokenize "widget").map (fun t =>
          if key ∈ postingOf cIdx1 t then
            match alookup cIdx1.endpoints key with
            | some e =>
              if specApiSkip none e || specMethodSkip (some "get") e then 0
              else specContrib t e
            | none => 0
          else 0)).sum) :=
  have hPO : PostingsOK cIdx1 :=
    postingsOK_addEndpoint cEpB (postingsOK_addEndpoint cEpA postingsOK_empty)
  ⟨fun t => (hPO t).1, fun t => (hPO t).2,
   c4_scoring_formula cIdx1 none (some "get") "widget"
     (fun t => (hPO t).1) (fun t => (hPO t).2)⟩

/-- Witness for `c9_posting_keys_resolve` at a concrete reachable
index. -/
theorem c9_witness :
    Reachable cIdx1 ∧
    ((∀ t : String, ∀ k ∈ postingOf cIdx1 t, (alookup cIdx1.endpoints k).isSome) ∧
     (∀ api sec : String, ∀ k ∈ sectionKeys cIdx1 api sec,
       (alookup cIdx1.endpoints k).isSome) ∧
     (∀ (q : String) (af mf : Option String) (lim : Int),
       (search cIdx1 q af mf lim).isOk)) :=
  have h : Reachable cIdx1 := Reachable.step cEpB (Reachable.step cEpA Reachable.base)
  ⟨h, c9_posting_keys_resolve cIdx1 h⟩

/-- Witness for `c3_overwrite_lastwritewins`: re-adding `cEpA` on top of
an index that already holds its key. -/
theorem c3_witness :
    (alookup (addEndpoint emptyIndex cEpA).endpoints cEpA.key).isSome ∧
    (alookup (addEndpoint (addEndpoint emptyIndex cEpA) cEpA).endpoints cEpA.key
        = some cEpA ∧
     (addEndpoint (addEndpoint emptyIndex cEpA) cEpA).endpoints.length =
       (addEndpoint emptyIndex cEpA).endpoints.length ∧
     (∃ ai', alookup (addEndpoint (addEndpoint emptyIndex cEpA) cEpA).api_info
         cEpA.api_name = some ai' ∧
       ai'.endpoint_count =
         ((alookup (addEndpoint emptyIndex cEpA).api_info cEpA.api_name).map
           ApiInfo.endpoint_count).getD 0 + 1) ∧
     (∀ t l, alookup (addEndpoint emptyIndex cEpA).inverted_index t = some l →
       ∃ l', alookup (addEndpoint (addEndpoint emptyIndex cEpA) cEpA).inverted_index
           t = some l' ∧ List.Sublist l l') ∧
     ((addEndpoint (addEndpoint (addEndpoint emptyIndex cEpA) cEpA) cEpA).endpoints =
        (addEndpoint (addEndpoint emptyIndex cEpA) cEpA).endpoints ∧
      (addEndpoint (addEndpoint (addEndpoint emptyIndex cEpA) cEpA) cEpA).inverted_index =
        (addEndpoint (addEndpoint emptyIndex cEpA) cEpA).inverted_index ∧
      (∀ (q : String) (af mf : Option String) (lim : Int),
        search (addEndpoint (addEndpoint (addEndpoint emptyIndex cEpA) cEpA) cEpA)
            q af mf lim =
          search (addEndpoint (addEndpoint emptyIndex cEpA) cEpA) q af mf lim) ∧
      (∃ ai₁ ai₂,
        alookup (addEndpoint (addEndpoint emptyIndex cEpA) cEpA).api_info
          cEpA.api_name = some ai₁ ∧
        alookup (addEndpoint (addEndpoint (addEndpoint emptyIndex cEpA) cEpA) cEpA).api_info
          cEpA.api_name = some ai₂ ∧
        ai₂.endpoint_count = ai₁.endpoint_count + 1))) :=
  ⟨by decide,
   c3_overwrite_lastwritewins (addEndpoint emptyIndex cEpA) cEpA (by decide)⟩

/-- Witness for `c2_amended_stable_descending_rank` at a concrete tied
query. -/
theorem c2_amended_witness :
    computeScores cIdx1 none none (tokenize "widget") = .ok wScores ∧
    (∀ kv ∈ wScores, (alookup cIdx1.endpoints kv.1).isSome) ∧
    (tokenize "widget").isEmpty = false ∧
    (((sortDesc wScores).Pairwise (fun a b : String × ℚ => b.2 ≤ a.2)) ∧
     List.Perm (sortDesc wScores) wScores ∧
     (∀ a b : String × ℚ, List.Sublist [a, b] wScores → b.2 ≤ a.2 →
       List.Sublist [a, b] (sortDesc wScores)) ∧
     search cIdx1 "widget" none none 10 =
       .ok ((pySlice (sortDesc wScores) 10).filterMap
         (fun kv => alookup cIdx1.endpoints kv.1))) :=
  ⟨by decide, by decide, by decide,
   c2_amended_stable_descending_rank cIdx1 "widget" none none 10 wScores
     (by decide) (by decide) (by decide)⟩

end KeboolaDocs

namespace KeboolaDocs

/-! ## C1: the Blueprint parser can raise

`_extract_example` computes `min(...)` over the non-blank lines of the
captured example body; a `+ Body` whose capture is whitespace-only makes
that an empty sequence and CPython raises
`ValueError: min() arg is an empty sequence`, escaping `parse`. -/

/-- A Blueprint document on which CPython's `ApibParser.parse` raises
`ValueError` (verified against the original implementation). -/
def crashDoc : String := "# Group G\n## R [GET /x]\n+ Request\n+ Body\n   "

/-- C1: evaluation of `parse` at the failing input — the all-whitespace
example body reaches the `min()`-of-empty-sequence `ValueError`, so
`parse` does not return an endpoint sequence. -/
theorem c1_parse_raises_on_blank_example_body :
    parseApib "Storage API" none none crashDoc = Except.error () := by decide

/-! ## C5: emission order and inheritance in `_parse_group` -/

/-- Spec wording: an action's effective path is its own declared path if
present, else the enclosing resource's path. -/
def effectivePath (a : ActHead) (resPath : Chars) : Chars :=
  match a.path with
  | some p => pyStrip p
  | none => resPath

/-- Spec wording: an action's effective name is its own name if present,
else the resource's name. -/
def effectiveName (a : ActHead) (resName : Chars) : Chars :=
  if (pyStrip a.name).isEmpty then resName else pyStrip a.name

/-- Spec wording for one resource window: the resource-level endpoint
(only when the header carries a method, with the whole window as body)
first, then one endpoint per action in document order. -/
def specResourceBlock (apiName : String) (ah bu : Option String)
    (gname : Chars) (r : ResHead) (w : Chars) : Except Unit (List Endpoint) := do
  let own ←
    match r.method with
    | some m => do
        let e ← createEndpoint apiName ah bu gname (pyStrip r.name) m
          (pyStrip r.path) w
        Except.ok [e]
    | none => Except.ok []
  let acts ← (windowsBy w (fun a => a.astop) (fun a => a.astart) (findAct w)).mapM
    (fun aw => createEndpoint apiName ah bu gname
      (effectiveName aw.1 (pyStrip r.name)) aw.1.method
      (effectivePath aw.1 (pyStrip r.path)) aw.2)
  Except.ok (own ++ acts)

/-- Spec wording for a whole group: resources in document order, each
contributing its block. -/
def specParseGroup (apiName : String) (ah bu : Option String)
    (gname content : Chars) : Except Unit (List Endpoint) := do
  let blocks ← (windowsBy content (fun r => r.rstop) (fun r => r.rstart)
      (findRes content)).mapM
    (fun rw => specResourceBlock apiName ah bu gname rw.1 rw.2)
  Except.ok blocks.flatten

/-- Two groups, each one resource with one GET action. -/
def c5TwoGroups : String :=
  "# Group Alpha\n\n## Users [/users]\n\n### List Users [GET]\nGet all users.\n\n# Group Beta\n\n## Items [/items]\n\n### List Items [GET]\nGet all items.\n"

/-- C5: `_parse_group` emits, per resource in document order, the
resource-level endpoint first (only when the header carries a method,
over the whole window) and then the actions in document order with
path/name inherited from the resource when absent; and on the
two-group document `parse` returns exactly the two endpoints whose
sections are the two group names. -/
theorem c5_document_order_and_inheritance :
    (∀ (apiName : String) (ah bu : Option String) (gname content : Chars),
      parseGroup apiName ah bu gname content =
        specParseGroup apiName ah bu gname content) ∧
    (parseApib "Test API" none none c5TwoGroups).map
        (fun l => l.map (fun e => (e.sectionName, e.method, e.path))) =
      .ok [("Alpha", "GET", "/users"), ("Beta", "GET", "/items")] := by
  constructor
  · intro apiName ah bu gname content
    rfl
  · decide

end KeboolaDocs

namespace KeboolaDocs

/-! ## C6: parameter and attribute extraction -/

/-- First-match decomposition of `List.find?`. -/
theorem find_decomp {α : Type} (p : α → Bool) :
    ∀ l : List α,
      (l.find? p = none ∧ ∀ x ∈ l, p x = false) ∨
      ∃ pre x post, l = pre ++ x :: post ∧ p x = true ∧
        (∀ y ∈ pre, p y = false) ∧ l.find? p = some x
  | [] => Or.inl ⟨rfl, by intro x hx; cases hx⟩
  | a :: l => by
    by_cases h : p a = true
    · right
      refine ⟨[], a, l, rfl, h, ?_, ?_⟩
      · intro y hy
        cases hy
      · rw [List.find?_cons_of_pos _ h]
    · have h' : p a = false := by simpa using h
      rcases find_decomp p l with ⟨hn, hall⟩ | ⟨pre, x, post, heq, hx, hpre, hf⟩
      · left
        refine ⟨?_, ?_⟩
        · rw [List.find?_cons_of_neg _ (by simp [h']), hn]
        · intro x hx
          rcases List.mem_cons.mp hx with rfl | hx
          · exact h'
          · exact hall x hx
      · right
        refine ⟨a :: pre, x, post, by rw [heq]; rfl, hx, ?_, ?_⟩
        · intro y hy
          rcases List.mem_cons.mp hy with rfl | hy
          · exact h'
          · exact hpre y hy
        · rw [List.find?_cons_of_neg _ (by simp [h']), hf]

/-- Destructing a successful `Except` bind. -/
theorem bind_ok {α β : Type} {x : Except Unit α} {f : α → Except Unit β} {v : β}
    (h : x >>= f = Except.ok v) : ∃ a, x = Except.ok a ∧ f a = Except.ok v := by
  cases x with
  | ok a => exact ⟨a, rfl, h⟩
  | error e => exact absurd h (by simp [Bind.bind, Except.bind])

/-- A content window whose `+ Parameters` block holds the claim's
example entry. -/
def c6Window : Chars :=
  "Desc.\n\n+ Parameters\n    + id (required, number) - Resource ID\n".toList

/-- The endpoint `createEndpoint` builds over `c6Window`. -/
def c6Ep : Endpoint :=
  { api_name := "T", sectionName := "S", path := "/p", method := "GET",
    summary := "N", description := "Desc.",
    parameters := [{ name := "id", location := "query", type := "number",
                     required := true, description := "Resource ID" }] }

/-- C6: a Parameters entry is required iff "required" occurs
case-insensitively in its type-info; its location is "path" iff the
literal token `\x7bname\x7d` occurs in the content window, else "query"; its
type is the first of number, integer, boolean, string, array, object
occurring in the lowered type-info, else "string"; an Attributes entry
has location "body" and is required iff the type-info contains
"required" and not "optional"; attribute parameters are appended after
the path/query parameters; and the example entry
`+ id (required, number) - Resource ID` yields name "id", type
"number", required true. -/
theorem c6_parameter_and_attribute_extraction :
    (∀ (w : Chars) (e : PEntry),
      (mkParam w e).required = ciSub "required" (String.mk e.typeInfo)) ∧
    (∀ (w : Chars) (e : PEntry),
      (mkParam w e).location =
        if containsSub ('{' :: (e.name ++ ['}'])) w then "path" else "query") ∧
    (∀ (w : Chars) (e : PEntry),
      ((∀ t ∈ typeNames, containsSub t (lowerC e.typeInfo) = false) ∧
        (mkParam w e).type = "string") ∨
      (∃ pre t post, typeNames = pre ++ t :: post ∧
        containsSub t (lowerC e.typeInfo) = true ∧
        (∀ u ∈ pre, containsSub u (lowerC e.typeInfo) = false) ∧
        (mkParam w e).type = String.mk t)) ∧
    (∀ (e : PEntry), (mkAttr e).location = "body" ∧
      (mkAttr e).required =
        (ciSub "required" (String.mk e.typeInfo) &&
          ! ciSub "optional" (String.mk e.typeInfo))) ∧
    (∀ (apiName : String) (ah bu : Option String)
      (sect name method path w : Chars) (ep : Endpoint),
      createEndpoint apiName ah bu sect name method path w = .ok ep →
      ep.parameters = parseParams w ++ parseAttrs w) ∧
    parseParams c6Window =
      [{ name := "id", location := "query", type := "number",
         required := true, description := "Resource ID" }] := by
  refine ⟨?_, ?_, ?_, ?_, ?_, ?_⟩
  · intro w e
    rfl
  · intro w e
    rfl
  · intro w e
    rcases find_decomp (fun t => containsSub t (lowerC e.typeInfo)) typeNames
      with ⟨hn, hall⟩ | ⟨pre, t, post, heq, ht, hpre, hf⟩
    · left
      exact ⟨hall, by simp [mkParam, typeOfInfo, hn]⟩
    · right
      exact ⟨pre, t, post, heq, ht, hpre, by simp [mkParam, typeOfInfo, hf]⟩
  · intro e
    exact ⟨rfl, rfl⟩
  · intro apiName ah bu sect name method path w ep h
    unfold createEndpoint at h
    obtain ⟨r1, h1, h⟩ := bind_ok h
    obtain ⟨r2, h2, h⟩ := bind_ok h
    cases h
    rfl
  · decide

/-- Witness for C6: the inheritance hypothesis is discharged at the
concrete window. -/
theorem c6_extraction_witness :
    createEndpoint "T" none none "S".toList "N".toList "GET".toList
      "/p".toList c6Window = .ok c6Ep ∧
    c6Ep.parameters = parseParams c6Window ++ parseAttrs c6Window :=
  ⟨by decide,
    c6_parameter_and_attribute_extraction.2.2.2.2.1 "T" none none
      "S".toList "N".toList "GET".toList "/p".toList c6Window c6Ep (by decide)⟩

end KeboolaDocs

namespace KeboolaDocs

/-! ## C7: base-URL resolution order -/

/-- `l.mapM f = .ok r` places every element of `r` under `f` of some
element of `l`. -/
theorem exc_mapM_mem {α β : Type} (f : α → Except Unit β) :
    ∀ (l : List α) (r : List β), l.mapM f = Except.ok r →
      ∀ y ∈ r, ∃ x ∈ l, f x = Except.ok y
  | [], r, h => by
    intro y hy
    simp only [List.mapM_nil] at h
    cases h
    cases hy
  | a :: l, r, h => by
    intro y hy
    rw [List.mapM_cons] at h
    obtain ⟨b, hb, h⟩ := bind_ok h
    obtain ⟨bs, hbs, h⟩ := bind_ok h
    have h' : Except.ok (b :: bs) = Except.ok r := h
    cases h'
    rcases List.mem_cons.mp hy with rfl | hy
    · exact ⟨a, List.mem_cons_self a l, hb⟩
    · obtain ⟨x, hx, hfx⟩ := exc_mapM_mem f l bs hbs y hy
      exact ⟨x, List.mem_cons_of_mem a hx, hfx⟩

/-- A successfully built Endpoint carries exactly the coerced resolved
base URL. -/
theorem opEndpoint_base_url (apiName : String) (ah : Option String)
    (bu : Option Json) (path : String) (pathItem : Json) (method : String)
    (op : Json) (e : Endpoint)
    (h : opEndpoint apiName ah bu path pathItem method op = Except.ok e) :
    asOptStrJ bu = Except.ok e.base_url := by
  unfold opEndpoint at h
  obtain ⟨tags, h1, h⟩ := bind_ok h
  obtain ⟨sect, h2, h⟩ := bind_ok h
  obtain ⟨inner, h3, h⟩ := bind_ok h
  obtain ⟨summaryJ, h4, h⟩ := bind_ok h
  obtain ⟨summary, h5, h⟩ := bind_ok h
  obtain ⟨descJ, h6, h⟩ := bind_ok h
  obtain ⟨desc, h7, h⟩ := bind_ok h
  obtain ⟨pj, h8, h⟩ := bind_ok h
  obtain ⟨ps1, h9, h⟩ := bind_ok h
  obtain ⟨ps2, h10, h⟩ := bind_ok h
  obtain ⟨ps3, h11, h⟩ := bind_ok h
  obtain ⟨reqEx, h12, h⟩ := bind_ok h
  obtain ⟨respEx, h13, h⟩ := bind_ok h
  obtain ⟨buS, h16, h⟩ := bind_ok h
  cases h
  exact h16

/-- C7: resolution order of the base URL — a (truthy) caller override
wins; else `servers[0].get("url", "")` when a servers list is present
and nonempty; else the Swagger reconstruction `scheme://host+basePath`
with the first listed scheme (default `https`); `None` when none of
override, servers, host is present — and every endpoint emitted by
`parse` carries the resolved value.  (An override of `""` is falsy in
Python and counts as no override.) -/
theorem c7_base_url_resolution :
    (∀ (spec : Json) (u : String), u ≠ "" →
      resolveBaseUrl (some u) spec = Except.ok (some (Json.str u))) ∧
    (∀ (ov : Option String) (fs o : List (String × Json)) (rest : List Json),
      optTruthy ov = none →
      alookup fs "servers" = some (Json.arr (Json.obj o :: rest)) →
      resolveBaseUrl ov (Json.obj fs) =
        Except.ok (some ((alookup o "url").getD (Json.str "")))) ∧
    (∀ (ov : Option String) (fs : List (String × Json)) (hst : String),
      optTruthy ov = none → alookup fs "servers" = none →
      alookup fs "host" = some (Json.str hst) → alookup fs "schemes" = none →
      resolveBaseUrl ov (Json.obj fs) =
        Except.ok (some (Json.str ("https://" ++ hst ++
          pyStrOf ((alookup fs "basePath").getD (Json.str "")))))) ∧
    (∀ (ov : Option String) (fs : List (String × Json)) (hst c : String)
      (cs : List Json),
      optTruthy ov = none → alookup fs "servers" = none →
      alookup fs "host" = some (Json.str hst) →
      alookup fs "schemes" = some (Json.arr (Json.str c :: cs)) →
      resolveBaseUrl ov (Json.obj fs) =
        Except.ok (some (Json.str (c ++ "://" ++ hst ++
          pyStrOf ((alookup fs "basePath").getD (Json.str "")))))) ∧
    (∀ (ov : Option String) (fs : List (String × Json)),
      optTruthy ov = none → alookup fs "servers" = none →
      alookup fs "host" = none →
      resolveBaseUrl ov (Json.obj fs) = Except.ok none) ∧
    (∀ (apiName : String) (ah ov : Option String) (spec : Json)
      (es : List Endpoint), parseOpenApi apiName ah ov spec = Except.ok es →
      ∃ bu, resolveBaseUrl ov spec = Except.ok bu ∧
        ∀ e ∈ es, asOptStrJ bu = Except.ok e.base_url) := by
  refine ⟨?_, ?_, ?_, ?_, ?_, ?_⟩
  · intro spec u hu
    simp [resolveBaseUrl, optTruthy, hu]
  · intro ov fs o rest hov hsv
    simp [resolveBaseUrl, hov, jIn, hsv, jSub, Json.truthy, pyIndex0, jGetD,
      Bind.bind, Except.bind]
  · intro ov fs hst hov hsv hh hsch
    simp [resolveBaseUrl, hostBranch, hov, jIn, hsv, hh, hsch, jSub,
      pyIndex0, jGetD, pyStrOf, Bind.bind, Except.bind]
  · intro ov fs hst c cs hov hsv hh hsch
    simp [resolveBaseUrl, hostBranch, hov, jIn, hsv, hh, hsch, jSub,
      pyIndex0, jGetD, pyStrOf, Bind.bind, Except.bind]
  · intro ov fs hov hsv hh
    simp [resolveBaseUrl, hostBranch, hov, jIn, hsv, hh, Bind.bind,
      Except.bind]
  · intro apiName ah ov spec es h
    unfold parseOpenApi at h
    obtain ⟨bu, hbu, h⟩ := bind_ok h
    obtain ⟨pathsJ, hp, h⟩ := bind_ok h
    refine ⟨bu, hbu, ?_⟩
    cases pathsJ with
    | obj paths =>
      obtain ⟨ess, hm, h⟩ := bind_ok h
      have h' : Except.ok ess.flatten = Except.ok es := h
      cases h'
      intro e he
      rw [List.mem_flatten] at he
      obtain ⟨l, hl, hel⟩ := he
      obtain ⟨pkv, hpkv, hpf⟩ := exc_mapM_mem _ paths ess hm l hl
      obtain ⟨mops, hmo, hmm⟩ := bind_ok hpf
      obtain ⟨mo, hmoMem, hop⟩ := exc_mapM_mem _ mops l hmm e hel
      exact opEndpoint_base_url _ _ _ _ _ _ _ _ hop
    | null => exact Except.noConfusion h
    | bool b => exact Except.noConfusion h
    | num n => exact Except.noConfusion h
    | str s => exact Except.noConfusion h
    | arr xs => exact Except.noConfusion h

/-- OpenAPI 3.x spec with a servers list. -/
def c7SpecServers : Json :=
  .obj [("servers", .arr [.obj [("url", .str "https://s.example")]])]

/-- Swagger 2.x spec without schemes. -/
def c7SpecSwagger : Json :=
  .obj [("host", .str "api.example"), ("basePath", .str "/v2")]

/-- Swagger 2.x spec with an explicit scheme list. -/
def c7SpecSchemes : Json :=
  .obj [("schemes", .arr [.str "http"]), ("host", .str "api.example"),
    ("basePath", .str "/v2")]

/-- Servers spec with one GET path. -/
def c7SpecFull : Json :=
  .obj [("servers", .arr [.obj [("url", .str "https://s.example")]]),
    ("paths", .obj [("/a", .obj [("get", .obj [])])])]

/-- The endpoint `parse` emits for `c7SpecFull`. -/
def c7Ep : Endpoint :=
  { api_name := "A", sectionName := "General", path := "/a", method := "GET",
    summary := "GET /a", base_url := some "https://s.example" }

/-- Witness for C7: each branch hypothesis discharged at a concrete
specification. -/
theorem c7_resolution_witness :
    ("https://o.example" ≠ "" ∧
      resolveBaseUrl (some "https://o.example") (Json.obj []) =
        Except.ok (some (Json.str "https://o.example"))) ∧
    resolveBaseUrl none c7SpecServers =
      Except.ok (some (Json.str "https://s.example")) ∧
    resolveBaseUrl none c7SpecSwagger =
      Except.ok (some (Json.str "https://api.example/v2")) ∧
    resolveBaseUrl none c7SpecSchemes =
      Except.ok (some (Json.str "http://api.example/v2")) ∧
    resolveBaseUrl none (Json.obj []) = Except.ok none ∧
    parseOpenApi "A" none none c7SpecFull = Except.ok [c7Ep] ∧
    (∃ bu, resolveBaseUrl none c7SpecFull = Except.ok bu ∧
      ∀ e ∈ [c7Ep], asOptStrJ bu = Except.ok e.base_url) := by
  refine ⟨⟨by decide,
    c7_base_url_resolution.1 (Json.obj []) "https://o.example" (by decide)⟩,
    ?_, ?_, ?_, ?_, ?_, ?_⟩
  · exact (c7_base_url_resolution.2.1 none
      [("servers", Json.arr [Json.obj [("url", Json.str "https://s.example")]])]
      [("url", Json.str "https://s.example")] [] rfl rfl).trans rfl
  · exact (c7_base_url_resolution.2.2.1 none
      [("host", Json.str "api.example"), ("basePath", Json.str "/v2")]
      "api.example" rfl rfl rfl rfl).trans rfl
  · exact (c7_base_url_resolution.2.2.2.1 none
      [("schemes", Json.arr [Json.str "http"]), ("host", Json.str "api.example"),
        ("basePath", Json.str "/v2")]
      "api.example" "http" [] rfl rfl rfl rfl).trans rfl
  · exact c7_base_url_resolution.2.2.2.2.1 none [] rfl rfl rfl
  · decide
  · exact c7_base_url_resolution.2.2.2.2.2 "A" none none c7SpecFull [c7Ep]
      (by decide)

end KeboolaDocs
